import Mathlib

/-!
# SizeDistribution (manta)

A shallow embedding of `src/c++/lib/manta/SizeDistribution.hh`: the record
`SizeData`, the accumulator `SizeDistribution`, its constructor,
`totalObservations`, `addObservation` and `serialize`. The members `calcStats`,
`cdf` and `quantile`, which the header only declares, follow the specification.

Conventions of the embedding:

* the C++ type `unsigned` is a natural number below `2 ^ 32`; `x++` is
  `(x + 1) % 2 ^ 32`;
* the C++ type `int` is an integer (the header does no arithmetic on keys);
* a `float` is represented by the rational number it denotes;
* `std::map<int, SizeData, std::greater<int>>` is the list of its
  (key, record) pairs in iteration order, that is with strictly descending keys.
-/

namespace Manta

/-- Number of values of the C++ type `unsigned`. -/
def UNSIGNED_MOD : Nat := 2 ^ 32

/-- The C++ increment `x++` of an `unsigned`. -/
def incrUnsigned (x : Nat) : Nat := (x + 1) % UNSIGNED_MOD

/-- The record `SizeData`; the default field values are those of the default
arguments of its constructor (`initCount = 0`, `initCprob = 0.`). -/
structure SizeData where
  count : Nat := 0
  cprob : ℚ := 0
deriving DecidableEq

/-- The type `SizeDistribution::map_type`, as the sequence of pairs met by an
iteration from `begin()` to `end()`: keys in descending order. -/
abbrev map_type := List (Int × SizeData)

/-- Keys of a map, in iteration order. -/
def keys (m : map_type) : List Int := m.map Prod.fst

/-- The ordering invariant of `std::map` with comparator `std::greater<int>`:
keys strictly descending along the iteration (hence unique). -/
def Sorted (m : map_type) : Prop := List.Pairwise (fun a b => a > b) (keys m)

instance (m : map_type) : Decidable (Sorted m) := by
  unfold Sorted; infer_instance

/-- The member `std::map::find`, `none` standing for `end()`. -/
def find : map_type → Int → Option SizeData
  | [], _ => none
  | (k, d) :: rest, key => if k = key then some d else find rest key

/-- The insertion half of `std::map::operator[]`: when `key` is absent a
default-constructed `SizeData` is inserted at its place in the descending
order; when it is present the map is left as it is. -/
def subscript : map_type → Int → map_type
  | [], key => [(key, {})]
  | (k, d) :: rest, key =>
    if key > k then (key, {}) :: (k, d) :: rest
    else if k > key then (k, d) :: subscript rest key
    else (k, d) :: rest

/-- Assignment through the reference returned by `operator[]`: the record
stored under `key` is replaced by `f` of it. -/
def updateAt (f : SizeData → SizeData) : map_type → Int → map_type
  | [], _ => []
  | (k, d) :: rest, key =>
    if k = key then (k, f d) :: rest else (k, d) :: updateAt f rest key

/-- The statement `rec.count++` on a record. -/
def incrCount (d : SizeData) : SizeData := { d with count := incrUnsigned d.count }

/-- The accumulator `SizeDistribution` (its four data members). -/
structure SizeDistribution where
  _isStatsComputed : Bool
  _totalCount : Nat
  _quantiles : List ℚ
  _sizeMap : map_type
deriving DecidableEq

/-- The constant `SizeDistribution::_quantileNum`. -/
def _quantileNum : Nat := 1000

namespace SizeDistribution

/-- The constructor `SizeDistribution()`. -/
def new : SizeDistribution :=
  { _isStatsComputed := false
    _totalCount := 0
    _quantiles := List.replicate _quantileNum 0
    _sizeMap := [] }

/-- The accessor `totalObservations()`. -/
def totalObservations (s : SizeDistribution) : Nat := s._totalCount

/-- The call `totalObservations()` as a state transformer: the result and the accumulator
after the call. The body is the single statement `return _totalCount;`, which writes no
member. -/
def totalObservationsCall (s : SizeDistribution) : Nat × SizeDistribution :=
  (s._totalCount, s)

/-- The method `addObservation(size)`, statement by statement. -/
def addObservation (s : SizeDistribution) (size : Int) : SizeDistribution :=
  let s1 := { s with _isStatsComputed := false }
  let s2 := { s1 with _totalCount := incrUnsigned s1._totalCount }
  { s2 with _sizeMap := updateAt incrCount (subscript s2._sizeMap size) size }

/-- A sequence of `addObservation` calls, in the order of the list. -/
def addObservations (s : SizeDistribution) (sizes : List Int) : SizeDistribution :=
  sizes.foldl addObservation s

end SizeDistribution

/-! ## Persisted state

`ar & x` of Boost.Serialization writes `x` to a saving archive and reads `x` from a
loading archive. An archive is modelled by the sequence of primitive values it holds. -/

/-- A primitive value of an archive. -/
inductive Item where
  | unsignedItem (n : Nat)
  | intItem (z : Int)
  | floatItem (q : ℚ)
deriving DecidableEq

/-- The archive content: primitive values in the order they were written. -/
abbrev Archive := List Item

namespace SizeData

/-- The template `SizeData::serialize` on a saving archive: `count`, then `cprob`. -/
def serialize_save (ar : Archive) (d : SizeData) : Archive :=
  ar ++ [Item.unsignedItem d.count, Item.floatItem d.cprob]

/-- The template `SizeData::serialize` on a loading archive: `count`, then `cprob`. -/
def serialize_load : Archive → Option (SizeData × Archive)
  | Item.unsignedItem c :: Item.floatItem q :: rest => some (⟨c, q⟩, rest)
  | _ => none

end SizeData

/-- The pairs of a `std::map` as a saving archive receives them: in iteration order, the
key before the record. -/
def saveMapItems : map_type → Archive
  | [] => []
  | (k, d) :: rest => SizeData.serialize_save [Item.intItem k] d ++ saveMapItems rest

/-- Saving of `_sizeMap` by `ar & _sizeMap`: the number of pairs, then the pairs. -/
def saveMap (ar : Archive) (m : map_type) : Archive :=
  ar ++ Item.unsignedItem m.length :: saveMapItems m

/-- The member `std::map::insert` of a pair: the pair is placed at its position in the
descending order unless its key is already present. -/
def insertPair : map_type → Int × SizeData → map_type
  | [], kv => [kv]
  | (k, d) :: rest, kv =>
    if kv.1 > k then kv :: (k, d) :: rest
    else if k > kv.1 then (k, d) :: insertPair rest kv
    else (k, d) :: rest

/-- Loading `n` pairs into the map `m`. -/
def loadMapItems : Nat → map_type → Archive → Option (map_type × Archive)
  | 0, m, ar => some (m, ar)
  | n + 1, m, Item.intItem k :: ar =>
    match SizeData.serialize_load ar with
    | some (d, rest) => loadMapItems n (insertPair m (k, d)) rest
    | none => none
  | _ + 1, _, _ => none

/-- Loading of `_sizeMap` by `ar & _sizeMap`: the map is cleared, the number of pairs is
read, then the pairs are read and inserted. -/
def loadMap : Archive → Option (map_type × Archive)
  | Item.unsignedItem n :: ar => loadMapItems n [] ar
  | _ => none

namespace SizeDistribution

/-- The template `SizeDistribution::serialize` on a saving archive: the archive after
the call and the accumulator after the call. -/
def serialize_save (ar : Archive) (s : SizeDistribution) : Archive × SizeDistribution :=
  let ar1 := ar ++ [Item.unsignedItem s._totalCount]
  let ar2 := saveMap ar1 s._sizeMap
  (ar2, { s with _isStatsComputed := false })

/-- The template `SizeDistribution::serialize` on a loading archive: the rest of the
archive and the accumulator after the call, or `none` when the archive does not hold
what is read. -/
def serialize_load (ar : Archive) (s : SizeDistribution) :
    Option (Archive × SizeDistribution) :=
  match ar with
  | Item.unsignedItem t :: ar1 =>
    match loadMap ar1 with
    | some (m, ar2) =>
      some (ar2, { s with _totalCount := t, _sizeMap := m, _isStatsComputed := false })
    | none => none
  | _ => none

end SizeDistribution

/-- The `int` values of an archive, in the order they were written. -/
def intItems : Archive → List Int
  | [] => []
  | Item.intItem z :: rest => z :: intItems rest
  | _ :: rest => intItems rest

/-- Sum of the `count` fields of all records of a map. -/
def sumCounts (m : map_type) : Nat := (m.map (fun kv => kv.2.count)).sum

/-- Sum of the `count` fields of the records whose key is at most `x`. -/
def cumCount (m : map_type) (x : Int) : Nat :=
  sumCounts (m.filter (fun kv => decide (kv.1 ≤ x)))

/-! ## Statistics and queries

`calcStats`, `cdf` and `quantile` are declared in the header and defined in
`SizeDistribution.cpp`, which is not among the sources; they are modelled from
sections 4.2 to 4.4 of the specification. The stored probabilities and table
entries are `float`s: the conversion of an exact value to the `float` that is
stored is the parameter `rnd` of the definitions. -/

/-- Modelled from the spec: step 2 of the statistics recomputation (section 4.2), whose
code is in the absent `SizeDistribution.cpp`. The map is traversed from the smallest key
to the largest, that is from the end of the descending list to its head; the count of each
record is added to a running sum and the record's `cprob` is set to
`running_sum / totalCount`. The result is the final running sum and the updated map. -/
def cumulate (rnd : ℚ → ℚ) (totalCount : Nat) : map_type → Nat × map_type
  | [] => (0, [])
  | (k, d) :: rest =>
    let r := cumulate rnd totalCount rest
    let running := r.1 + d.count
    (running, (k, { d with cprob := rnd ((running : ℚ) / (totalCount : ℚ)) }) :: r.2)

/-- Modelled from the spec: "the smallest observed value `v` whose cached cumulative
probability is ≥ `p`" (section 4.2, step 3): the first hit of an ascending traversal, so
the smaller keys (the tail of the descending list) are searched before the head. -/
def smallestWithCprob (p : ℚ) : map_type → Option Int
  | [] => none
  | (k, d) :: rest =>
    match smallestWithCprob p rest with
    | some v => some v
    | none => if p ≤ d.cprob then some k else none

/-- Modelled from the spec: step 3 of the statistics recomputation (section 4.2): bucket
`i` of the table receives the smallest observed value whose cumulative probability is at
least `i / 1000`, as a `float`. The spec names no value for a bucket without such a value:
its entry is left as it was. -/
def buildQuantiles (rnd : ℚ → ℚ) (m : map_type) (old : List ℚ) : List ℚ :=
  (List.range _quantileNum).map (fun (i : Nat) =>
    match smallestWithCprob ((i : ℚ) / (_quantileNum : ℚ)) m with
    | some v => rnd (v : ℚ)
    | none => old.getD i 0)

/-- Modelled from the spec: largest observed value `v ≤ x` with its record (section 4.3),
found by a forward search of the descending map. -/
def floorEntry : map_type → Int → Option (Int × SizeData)
  | [], _ => none
  | (k, d) :: rest, x => if k ≤ x then some (k, d) else floorEntry rest x

/-- Modelled from the spec: the value `cdf` returns once the cache is fresh (section 4.3):
the cached cumulative probability of the largest observed value `v ≤ x`, and `0` when
there is none. -/
def cdfValue (m : map_type) (x : Int) : ℚ :=
  match floorEntry m x with
  | some kv => kv.2.cprob
  | none => 0

/-- Conversion of a `float` to `int`: truncation toward zero. -/
def truncToInt (q : ℚ) : Int := if 0 ≤ q then ⌊q⌋ else ⌈q⌉

/-- Modelled from the spec: the bucket index of section 4.4, `floor(p * 1000)` bounded to
`[0, 999]`. -/
def bucket (p : ℚ) : Nat :=
  (min ((_quantileNum : Int) - 1) (max 0 ⌊p * (_quantileNum : ℚ)⌋)).toNat

namespace SizeDistribution

/-- Modelled from the spec: the statistics recomputation of section 4.2 (the body of
`calcStats`, in the absent `SizeDistribution.cpp`). With `totalCount == 0` the cache is
left as it is and marked fresh; otherwise the cumulative probabilities and the quantile
table are rebuilt and the cache is marked fresh. -/
def calcStats (rnd : ℚ → ℚ) (s : SizeDistribution) : SizeDistribution :=
  if s._totalCount = 0 then { s with _isStatsComputed := true }
  else
    let m := (cumulate rnd s._totalCount s._sizeMap).2
    { s with
      _sizeMap := m
      _quantiles := buildQuantiles rnd m s._quantiles
      _isStatsComputed := true }

/-- Modelled from the spec: the recomputation gate at the top of every query ("runs
whenever a query operation is invoked while `statsFresh` is false"). -/
def ensureFresh (rnd : ℚ → ℚ) (s : SizeDistribution) : SizeDistribution :=
  if s._isStatsComputed then s else calcStats rnd s

/-- Modelled from the spec: `cdf(x)` of section 4.3 (defined in the absent
`SizeDistribution.cpp`): the result and the accumulator after the call. -/
def cdf (rnd : ℚ → ℚ) (s : SizeDistribution) (x : Int) : ℚ × SizeDistribution :=
  let s1 := ensureFresh rnd s
  (cdfValue s1._sizeMap x, s1)

/-- Modelled from the spec: `quantile(p)` of section 4.4 (defined in the absent
`SizeDistribution.cpp`): the result and the accumulator after the call. -/
def quantile (rnd : ℚ → ℚ) (s : SizeDistribution) (p : ℚ) : Int × SizeDistribution :=
  let s1 := ensureFresh rnd s
  (truncToInt (s1._quantiles.getD (bucket p) 0), s1)

end SizeDistribution

/-- The states an accumulator goes through: construction, then any sequence of
`addObservation`, `cdf`, `quantile` and `serialize` (saving or loading) calls. -/
inductive Reachable (rnd : ℚ → ℚ) : SizeDistribution → Prop where
  | construct : Reachable rnd SizeDistribution.new
  | add (s : SizeDistribution) (size : Int) :
      Reachable rnd s → Reachable rnd (s.addObservation size)
  | queryCdf (s : SizeDistribution) (x : Int) :
      Reachable rnd s → Reachable rnd (SizeDistribution.cdf rnd s x).2
  | queryQuantile (s : SizeDistribution) (p : ℚ) :
      Reachable rnd s → Reachable rnd (SizeDistribution.quantile rnd s p).2
  | save (s : SizeDistribution) (ar : Archive) :
      Reachable rnd s → Reachable rnd (SizeDistribution.serialize_save ar s).2
  | load (s s1 : SizeDistribution) (ar ar1 : Archive) :
      Reachable rnd s → SizeDistribution.serialize_load ar s = some (ar1, s1) →
      Reachable rnd s1

/-- The cache of an accumulator is consistent: when the flag says fresh, the cumulative
probabilities and the quantile table are those a recomputation produces. -/
def CacheValid (rnd : ℚ → ℚ) (s : SizeDistribution) : Prop :=
  s._isStatsComputed = true →
    SizeDistribution.calcStats rnd { s with _isStatsComputed := false } = s

/-! ## Lemmas on the map operations -/

theorem incrUnsigned_lt (x : Nat) : incrUnsigned x < UNSIGNED_MOD := by
  unfold incrUnsigned UNSIGNED_MOD
  exact Nat.mod_lt _ (by norm_num)

theorem incrUnsigned_of_lt (x : Nat) (h : x + 1 < UNSIGNED_MOD) : incrUnsigned x = x + 1 := by
  unfold incrUnsigned
  exact Nat.mod_eq_of_lt h

theorem find_eq_none_iff (m : map_type) (key : Int) : find m key = none ↔ key ∉ keys m := by
  induction m with
  | nil => simp [find, keys]
  | cons kv rest ih =>
    obtain ⟨k, d⟩ := kv
    by_cases hk : k = key
    · simp [find, keys, hk]
    · have hk2 : ¬ key = k := fun h => hk h.symm
      simp only [keys] at ih
      simp [find, keys, hk, hk2, ih]

theorem find_isSome_iff (m : map_type) (key : Int) : (find m key).isSome ↔ key ∈ keys m := by
  rw [← not_iff_not, ← find_eq_none_iff]
  cases find m key <;> simp

theorem find_updateAt (f : SizeData → SizeData) (m : map_type) (key k : Int) :
    find (updateAt f m key) k = if k = key then (find m key).map f else find m k := by
  induction m with
  | nil => simp [find, updateAt]
  | cons kv rest ih =>
    obtain ⟨k0, d⟩ := kv
    by_cases h0 : k0 = key
    · subst h0
      by_cases hk : k = k0
      · subst hk; simp [find, updateAt]
      · have hk2 : ¬ k0 = k := fun h => hk h.symm
        simp [find, updateAt, hk, hk2]
    · by_cases hk : k = key
      · subst hk
        simp [find, updateAt, h0, ih]
      · by_cases hk0 : k0 = k
        · simp [find, updateAt, h0, hk, hk0]
        · simp [find, updateAt, h0, hk, hk0, ih]

theorem keys_updateAt (f : SizeData → SizeData) (m : map_type) (key : Int) :
    keys (updateAt f m key) = keys m := by
  induction m with
  | nil => simp [updateAt]
  | cons kv rest ih =>
    obtain ⟨k0, d⟩ := kv
    by_cases h0 : k0 = key
    · simp [updateAt, keys, h0]
    · simp only [keys] at ih
      simp [updateAt, keys, h0, ih]

theorem mem_keys_subscript (m : map_type) (key k : Int) :
    k ∈ keys (subscript m key) ↔ k = key ∨ k ∈ keys m := by
  induction m with
  | nil => simp [subscript, keys]
  | cons kv rest ih =>
    obtain ⟨k0, d⟩ := kv
    simp only [keys] at ih
    by_cases h1 : key > k0
    · simp [subscript, keys, h1]
    · by_cases h2 : k0 > key
      · simp only [subscript, keys, h1, h2, if_true, if_false, List.map_cons, List.mem_cons, ih]
        tauto
      · have : key = k0 := by omega
        subst this
        simp [subscript, keys]

theorem sorted_cons (k : Int) (d : SizeData) (rest : map_type) :
    Sorted ((k, d) :: rest) ↔ (∀ k1 ∈ keys rest, k > k1) ∧ Sorted rest := by
  simp [Sorted, keys]

theorem sorted_subscript (m : map_type) (key : Int) (h : Sorted m) :
    Sorted (subscript m key) := by
  induction m with
  | nil => simp [subscript, Sorted, keys]
  | cons kv rest ih =>
    obtain ⟨k0, d⟩ := kv
    rw [sorted_cons] at h
    by_cases h1 : key > k0
    · simp only [subscript, h1, if_true]
      rw [sorted_cons]
      refine ⟨?_, (sorted_cons _ _ _).2 h⟩
      intro k1 hk1
      simp only [keys, List.map_cons, List.mem_cons] at hk1
      rcases hk1 with rfl | hk1
      · exact h1
      · have := h.1 k1 hk1
        omega
    · by_cases h2 : k0 > key
      · simp only [subscript, h1, h2, if_true, if_false]
        rw [sorted_cons]
        refine ⟨?_, ih h.2⟩
        intro k1 hk1
        rw [mem_keys_subscript] at hk1
        rcases hk1 with rfl | hk1
        · exact h2
        · exact h.1 k1 hk1
      · simp only [subscript, h1, h2, if_false]
        exact (sorted_cons _ _ _).2 h

theorem sorted_updateAt (f : SizeData → SizeData) (m : map_type) (key : Int) (h : Sorted m) :
    Sorted (updateAt f m key) := by
  unfold Sorted at *
  rw [keys_updateAt]
  exact h

theorem find_subscript (m : map_type) (key k : Int) (h : Sorted m) :
    find (subscript m key) k
      = if k = key then some ((find m key).getD {}) else find m k := by
  induction m with
  | nil =>
    by_cases hk : k = key
    · subst hk; simp [subscript, find]
    · have hk2 : ¬ key = k := fun h => hk h.symm
      simp [subscript, find, hk, hk2]
  | cons kv rest ih =>
    obtain ⟨k0, d⟩ := kv
    rw [sorted_cons] at h
    by_cases h1 : key > k0
    · have hnone : find ((k0, d) :: rest) key = none := by
        rw [find_eq_none_iff]
        simp only [keys, List.map_cons, List.mem_cons, not_or]
        refine ⟨by omega, fun hmem => ?_⟩
        have := h.1 key hmem
        omega
      by_cases hk : k = key
      · subst hk
        rw [hnone]
        simp [subscript, h1, find]
      · have hk2 : ¬ key = k := fun h => hk h.symm
        simp [subscript, h1, find, hk, hk2]
    · by_cases h2 : k0 > key
      · have h3 : ¬ k0 = key := by omega
        by_cases hk : k = key
        · subst hk
          simp [subscript, h1, h2, find, h3, ih h.2]
        · by_cases hk0 : k0 = k
          · subst hk0
            simp [subscript, h1, h2, find, hk]
          · simp [subscript, h1, h2, find, hk, hk0, ih h.2]
      · have h3 : key = k0 := by omega
        subst h3
        by_cases hk : k = key
        · subst hk
          simp [subscript, find]
        · simp [subscript, hk]

theorem subscript_of_mem (m : map_type) (key : Int) (h : Sorted m) (hmem : key ∈ keys m) :
    subscript m key = m := by
  induction m with
  | nil => simp [keys] at hmem
  | cons kv rest ih =>
    obtain ⟨k0, d⟩ := kv
    rw [sorted_cons] at h
    simp only [keys, List.map_cons, List.mem_cons] at hmem
    by_cases h1 : key > k0
    · exfalso
      rcases hmem with h0 | h0
      · omega
      · have := h.1 key h0
        omega
    · by_cases h2 : k0 > key
      · have h3 : key ∈ keys rest := by
          rcases hmem with h0 | h0
          · omega
          · exact h0
        simp [subscript, h1, h2, ih h.2 h3]
      · simp [subscript, h1, h2]

theorem length_subscript_of_not_mem (m : map_type) (key : Int) (hmem : key ∉ keys m) :
    (subscript m key).length = m.length + 1 := by
  induction m with
  | nil => simp [subscript]
  | cons kv rest ih =>
    obtain ⟨k0, d⟩ := kv
    simp only [keys, List.map_cons, List.mem_cons, not_or] at hmem
    by_cases h1 : key > k0
    · simp [subscript, h1]
    · by_cases h2 : k0 > key
      · simp [subscript, h1, h2, ih hmem.2]
      · exfalso
        omega

theorem sorted_ext (m1 m2 : map_type) (h1 : Sorted m1) (h2 : Sorted m2)
    (h : ∀ k, find m1 k = find m2 k) : m1 = m2 := by
  induction m1 generalizing m2 with
  | nil =>
    cases m2 with
    | nil => rfl
    | cons kv rest =>
      obtain ⟨k, d⟩ := kv
      have := h k
      simp [find] at this
  | cons kv1 rest1 ih =>
    obtain ⟨k1, d1⟩ := kv1
    cases m2 with
    | nil =>
      have := h k1
      simp [find] at this
    | cons kv2 rest2 =>
      obtain ⟨k2, d2⟩ := kv2
      rw [sorted_cons] at h1 h2
      have hk : k1 = k2 := by
        by_contra hne
        have e1 := h k1
        have e2 := h k2
        have hne2 : ¬ k2 = k1 := fun e => hne e.symm
        simp only [find, if_true, hne, hne2, if_false] at e1 e2
        have m1 : k1 ∈ keys rest2 := by
          rw [← find_isSome_iff, ← e1]; rfl
        have m2 : k2 ∈ keys rest1 := by
          rw [← find_isSome_iff, e2]; rfl
        have := h1.1 k2 m2
        have := h2.1 k1 m1
        omega
      subst hk
      have hd : d1 = d2 := by
        have := h k1
        simpa [find] using this
      subst hd
      have hrest : rest1 = rest2 := by
        apply ih rest2 h1.2 h2.2
        intro k
        by_cases hk : k1 = k
        · subst hk
          have n1 : find rest1 k1 = none := by
            rw [find_eq_none_iff]
            intro hm
            have := h1.1 k1 hm
            omega
          have n2 : find rest2 k1 = none := by
            rw [find_eq_none_iff]
            intro hm
            have := h2.1 k1 hm
            omega
          rw [n1, n2]
        · have := h k
          simpa [find, hk] using this
      rw [hrest]

theorem sumCounts_subscript (m : map_type) (key : Int) :
    sumCounts (subscript m key) = sumCounts m := by
  induction m with
  | nil => simp [subscript, sumCounts]
  | cons kv rest ih =>
    obtain ⟨k0, d⟩ := kv
    simp only [sumCounts] at ih
    by_cases h1 : key > k0
    · simp [subscript, sumCounts, h1]
    · by_cases h2 : k0 > key
      · simp [subscript, sumCounts, h1, h2, ih]
      · simp [subscript, sumCounts, h1, h2]

theorem sumCounts_updateAt_mod (m : map_type) (key : Int) (hmem : key ∈ keys m) :
    sumCounts (updateAt incrCount m key) % UNSIGNED_MOD = (sumCounts m + 1) % UNSIGNED_MOD := by
  induction m with
  | nil => simp [keys] at hmem
  | cons kv rest ih =>
    obtain ⟨k0, d⟩ := kv
    simp only [keys, List.map_cons, List.mem_cons] at hmem
    simp only [sumCounts, UNSIGNED_MOD] at ih
    by_cases h0 : k0 = key
    · simp only [updateAt, h0, if_true, sumCounts, List.map_cons, List.sum_cons, incrCount,
        incrUnsigned, UNSIGNED_MOD]
      omega
    · have hm : key ∈ keys rest := by
        rcases hmem with h | h
        · exact absurd h.symm h0
        · exact h
      have := ih hm
      simp only [updateAt, h0, if_false, sumCounts, List.map_cons, List.sum_cons, UNSIGNED_MOD]
      omega

theorem sumCounts_updateAt_lt (m : map_type) (key : Int) (hmem : key ∈ keys m)
    (hlt : sumCounts m + 1 < UNSIGNED_MOD) :
    sumCounts (updateAt incrCount m key) = sumCounts m + 1 := by
  induction m with
  | nil => simp [keys] at hmem
  | cons kv rest ih =>
    obtain ⟨k0, d⟩ := kv
    simp only [keys, List.map_cons, List.mem_cons] at hmem
    simp only [sumCounts, List.map_cons, List.sum_cons, UNSIGNED_MOD] at hlt
    simp only [sumCounts, UNSIGNED_MOD] at ih
    by_cases h0 : k0 = key
    · simp only [updateAt, h0, if_true, sumCounts, List.map_cons, List.sum_cons, incrCount,
        incrUnsigned, UNSIGNED_MOD]
      omega
    · have hm : key ∈ keys rest := by
        rcases hmem with h | h
        · exact absurd h.symm h0
        · exact h
      have := ih hm (by omega)
      simp only [updateAt, h0, if_false, sumCounts, List.map_cons, List.sum_cons]
      omega

/-! ## Lemmas on `addObservation` -/

namespace SizeDistribution

theorem addObservation_totalCount (s : SizeDistribution) (size : Int) :
    (s.addObservation size)._totalCount = incrUnsigned s._totalCount := rfl

theorem addObservation_isStatsComputed (s : SizeDistribution) (size : Int) :
    (s.addObservation size)._isStatsComputed = false := rfl

theorem addObservation_quantiles (s : SizeDistribution) (size : Int) :
    (s.addObservation size)._quantiles = s._quantiles := rfl

theorem addObservation_sizeMap (s : SizeDistribution) (size : Int) :
    (s.addObservation size)._sizeMap = updateAt incrCount (subscript s._sizeMap size) size := rfl

theorem addObservations_nil (s : SizeDistribution) : s.addObservations [] = s := rfl

theorem addObservations_snoc (s : SizeDistribution) (xs : List Int) (x : Int) :
    s.addObservations (xs ++ [x]) = (s.addObservations xs).addObservation x := by
  simp [addObservations, List.foldl_append]

theorem addObservations_append (s : SizeDistribution) (xs ys : List Int) :
    s.addObservations (xs ++ ys) = (s.addObservations xs).addObservations ys := by
  simp [addObservations, List.foldl_append]

theorem sorted_addObservation (s : SizeDistribution) (size : Int) (h : Sorted s._sizeMap) :
    Sorted (s.addObservation size)._sizeMap := by
  rw [addObservation_sizeMap]
  exact sorted_updateAt _ _ _ (sorted_subscript _ _ h)

theorem sorted_addObservations (s : SizeDistribution) (xs : List Int) (h : Sorted s._sizeMap) :
    Sorted (s.addObservations xs)._sizeMap := by
  induction xs using List.reverseRecOn with
  | nil => exact h
  | append_singleton xs x ih =>
    rw [addObservations_snoc]
    exact sorted_addObservation _ _ ih

theorem sorted_new : Sorted new._sizeMap := by
  simp [new, Sorted, keys]

theorem find_addObservation (s : SizeDistribution) (size k : Int) (h : Sorted s._sizeMap) :
    find (s.addObservation size)._sizeMap k
      = if k = size then some (incrCount ((find s._sizeMap size).getD {}))
        else find s._sizeMap k := by
  rw [addObservation_sizeMap, find_updateAt, find_subscript _ size size h,
    find_subscript _ size k h]
  by_cases hk : k = size
  · simp [hk]
  · simp [hk]

theorem mem_keys_addObservation (s : SizeDistribution) (size k : Int) :
    k ∈ keys (s.addObservation size)._sizeMap ↔ k = size ∨ k ∈ keys s._sizeMap := by
  rw [addObservation_sizeMap, keys_updateAt, mem_keys_subscript]

theorem totalCount_addObservations_new (xs : List Int) :
    (new.addObservations xs)._totalCount = xs.length % UNSIGNED_MOD := by
  induction xs using List.reverseRecOn with
  | nil => rfl
  | append_singleton xs x ih =>
    rw [addObservations_snoc, addObservation_totalCount, ih]
    simp only [incrUnsigned, UNSIGNED_MOD, List.length_append, List.length_singleton]
    omega

theorem find_addObservations_new (xs : List Int) (k : Int) :
    find (new.addObservations xs)._sizeMap k
      = if k ∈ xs then some ⟨xs.count k % UNSIGNED_MOD, 0⟩ else none := by
  induction xs using List.reverseRecOn generalizing k with
  | nil => simp [addObservations_nil, new, find]
  | append_singleton xs x ih =>
    rw [addObservations_snoc, find_addObservation _ _ _ (sorted_addObservations _ _ sorted_new)]
    by_cases hk : k = x
    · subst hk
      rw [ih k]
      by_cases hm : k ∈ xs
      · simp only [hm, if_true, Option.getD_some, incrCount, incrUnsigned, UNSIGNED_MOD,
          List.mem_append, List.mem_singleton, or_true, List.count_append, List.count_singleton_self]
        congr 2
        omega
      · have hc : List.count k xs = 0 := List.count_eq_zero_of_not_mem hm
        simp [hm, incrCount, incrUnsigned, UNSIGNED_MOD, hc]
    · have hk2 : ¬ x = k := fun e => hk e.symm
      rw [ih k]
      simp [hk, hk2, List.count_append, List.count_singleton]

theorem sumCounts_addObservation_mod (s : SizeDistribution) (size : Int) :
    sumCounts (s.addObservation size)._sizeMap % UNSIGNED_MOD
      = (sumCounts s._sizeMap + 1) % UNSIGNED_MOD := by
  rw [addObservation_sizeMap, sumCounts_updateAt_mod, sumCounts_subscript]
  rw [mem_keys_subscript]
  exact Or.inl rfl

theorem sumCounts_addObservation_lt (s : SizeDistribution) (size : Int)
    (hlt : sumCounts s._sizeMap + 1 < UNSIGNED_MOD) :
    sumCounts (s.addObservation size)._sizeMap = sumCounts s._sizeMap + 1 := by
  rw [addObservation_sizeMap, sumCounts_updateAt_lt, sumCounts_subscript]
  · rw [mem_keys_subscript]
    exact Or.inl rfl
  · rw [sumCounts_subscript]
    exact hlt

theorem sumCounts_addObservations_new (xs : List Int) (hlt : xs.length < UNSIGNED_MOD) :
    sumCounts (new.addObservations xs)._sizeMap = xs.length := by
  induction xs using List.reverseRecOn with
  | nil => rfl
  | append_singleton xs x ih =>
    simp only [List.length_append, List.length_singleton] at hlt
    have hx := ih (by omega)
    rw [addObservations_snoc, sumCounts_addObservation_lt _ _ (by omega), hx]
    simp

theorem sumCounts_addObservations_new_mod (xs : List Int) :
    sumCounts (new.addObservations xs)._sizeMap % UNSIGNED_MOD = xs.length % UNSIGNED_MOD := by
  induction xs using List.reverseRecOn with
  | nil => rfl
  | append_singleton xs x ih =>
    rw [addObservations_snoc, sumCounts_addObservation_mod]
    simp only [UNSIGNED_MOD, List.length_append, List.length_singleton] at ih ⊢
    omega

theorem totalCount_replicate (n : Nat) (v : Int) :
    (new.addObservations (List.replicate n v))._totalCount = n % UNSIGNED_MOD := by
  rw [totalCount_addObservations_new, List.length_replicate]

theorem find_replicate (n : Nat) (v : Int) (hn : 0 < n) :
    find (new.addObservations (List.replicate n v))._sizeMap v
      = some ⟨n % UNSIGNED_MOD, 0⟩ := by
  have hn0 : n ≠ 0 := by omega
  rw [find_addObservations_new]
  simp [List.count_replicate, hn0]

theorem totalCount_two_values (a b : Nat) :
    (new.addObservations (List.replicate a 0 ++ List.replicate b 1))._totalCount
      = (a + b) % UNSIGNED_MOD := by
  rw [totalCount_addObservations_new, List.length_append, List.length_replicate,
    List.length_replicate]

theorem sizeMap_two_values (a b : Nat) (ha : 0 < a) (hb : 0 < b) :
    (new.addObservations (List.replicate a 0 ++ List.replicate b 1))._sizeMap
      = [(1, ⟨b % UNSIGNED_MOD, 0⟩), (0, ⟨a % UNSIGNED_MOD, 0⟩)] := by
  apply sorted_ext _ _ (sorted_addObservations _ _ sorted_new)
  · simp [Sorted, keys]
  · intro k
    rw [find_addObservations_new]
    have ha0 : a ≠ 0 := by omega
    have hb0 : b ≠ 0 := by omega
    by_cases h1 : k = 1
    · subst h1
      simp [find, List.count_append, List.count_replicate, hb0]
    · by_cases h0 : k = 0
      · subst h0
        simp [find, List.count_append, List.count_replicate, ha0]
      · have h1b : ¬ (1 : Int) = k := fun e => h1 e.symm
        have h0b : ¬ (0 : Int) = k := fun e => h0 e.symm
        simp [find, List.mem_replicate, h1, h0, h1b, h0b]

theorem totalObservations_replicate_ne (n : Nat) (v : Int) (hn : n % UNSIGNED_MOD ≠ n) :
    (new.addObservations (List.replicate n v)).totalObservations
      ≠ (List.replicate n v).length := by
  unfold totalObservations
  rw [totalCount_replicate, List.length_replicate]
  exact hn

theorem totalCount_ne_sumCounts_two_values (a b : Nat) (ha : 0 < a) (hb : 0 < b)
    (hne : (a + b) % UNSIGNED_MOD ≠ a % UNSIGNED_MOD + b % UNSIGNED_MOD) :
    (new.addObservations (List.replicate a 0 ++ List.replicate b 1))._totalCount
      ≠ sumCounts (new.addObservations (List.replicate a 0 ++ List.replicate b 1))._sizeMap := by
  rw [sizeMap_two_values _ _ ha hb, totalCount_two_values]
  simp only [sumCounts, List.map_cons, List.map_nil, List.sum_cons, List.sum_nil]
  omega

theorem addObservation_wraps (n c : Nat) (v : Int) (hn : 0 < n) (hc : n % UNSIGNED_MOD = c)
    (hw : c + 1 = UNSIGNED_MOD) :
    find (new.addObservations (List.replicate n v))._sizeMap v = some ⟨c, 0⟩
      ∧ (new.addObservations (List.replicate n v))._totalCount = c
      ∧ find ((new.addObservations (List.replicate n v)).addObservation v)._sizeMap v
        ≠ some ⟨c + 1, 0⟩
      ∧ ((new.addObservations (List.replicate n v)).addObservation v)._totalCount ≠ c + 1 := by
  have hf := find_replicate n v hn
  have ht := totalCount_replicate n v
  rw [hc] at hf ht
  refine ⟨hf, ht, ?_, ?_⟩
  · rw [find_addObservation _ _ _ (sorted_addObservations _ _ sorted_new), hf]
    simp only [if_true, Option.getD_some, incrCount, incrUnsigned, hw, Nat.mod_self]
    intro h
    injection h with h
    injection h with h1 h2
    simp [UNSIGNED_MOD] at h1
  · rw [addObservation_totalCount, ht]
    simp only [incrUnsigned, hw, Nat.mod_self]
    simp [UNSIGNED_MOD]

end SizeDistribution

/-! ## Lemmas on the statistics -/

theorem cumulate_fst (rnd : ℚ → ℚ) (t : Nat) (m : map_type) :
    (cumulate rnd t m).1 = sumCounts m := by
  induction m with
  | nil => rfl
  | cons kv rest ih =>
    obtain ⟨k, d⟩ := kv
    simp only [sumCounts] at ih
    simp only [cumulate, ih, sumCounts, List.map_cons, List.sum_cons]
    omega

theorem cumulate_snd_cons (rnd : ℚ → ℚ) (t : Nat) (k : Int) (d : SizeData) (rest : map_type) :
    (cumulate rnd t ((k, d) :: rest)).2
      = (k, ⟨d.count, rnd ((sumCounts ((k, d) :: rest) : ℚ) / (t : ℚ))⟩)
          :: (cumulate rnd t rest).2 := by
  have h : sumCounts ((k, d) :: rest) = sumCounts rest + d.count := by
    simp only [sumCounts, List.map_cons, List.sum_cons]
    omega
  simp only [cumulate, cumulate_fst, h]

theorem keys_cumulate (rnd : ℚ → ℚ) (t : Nat) (m : map_type) :
    keys (cumulate rnd t m).2 = keys m := by
  induction m with
  | nil => rfl
  | cons kv rest ih =>
    obtain ⟨k, d⟩ := kv
    rw [cumulate_snd_cons]
    simp only [keys] at ih
    simp [keys, ih]

theorem counts_cumulate (rnd : ℚ → ℚ) (t : Nat) (m : map_type) :
    (cumulate rnd t m).2.map (fun kv => (kv.1, kv.2.count))
      = m.map (fun kv => (kv.1, kv.2.count)) := by
  induction m with
  | nil => rfl
  | cons kv rest ih =>
    obtain ⟨k, d⟩ := kv
    rw [cumulate_snd_cons]
    simp [ih]

theorem sumCounts_cumulate (rnd : ℚ → ℚ) (t : Nat) (m : map_type) :
    sumCounts (cumulate rnd t m).2 = sumCounts m := by
  have h := congrArg (fun l => (l.map Prod.snd).sum) (counts_cumulate rnd t m)
  simpa [sumCounts, List.map_map, Function.comp_def] using h

theorem cumulate_idem (rnd : ℚ → ℚ) (t : Nat) (m : map_type) :
    (cumulate rnd t (cumulate rnd t m).2).2 = (cumulate rnd t m).2 := by
  induction m with
  | nil => rfl
  | cons kv rest ih =>
    obtain ⟨k, d⟩ := kv
    have h1 : sumCounts
        ((k, (⟨d.count, rnd ((sumCounts ((k, d) :: rest) : ℚ) / (t : ℚ))⟩ : SizeData))
          :: (cumulate rnd t rest).2) = sumCounts ((k, d) :: rest) := by
      have := sumCounts_cumulate rnd t rest
      simp only [sumCounts] at this
      simp [sumCounts, this]
    rw [cumulate_snd_cons, cumulate_snd_cons, ih, h1]

theorem sorted_cumulate (rnd : ℚ → ℚ) (t : Nat) (m : map_type) (h : Sorted m) :
    Sorted (cumulate rnd t m).2 := by
  unfold Sorted at *
  rw [keys_cumulate]
  exact h

theorem find_cumulate (rnd : ℚ → ℚ) (t : Nat) (m : map_type) (k : Int) :
    (find (cumulate rnd t m).2 k).map SizeData.count = (find m k).map SizeData.count := by
  induction m with
  | nil => rfl
  | cons kv rest ih =>
    obtain ⟨k0, d⟩ := kv
    rw [cumulate_snd_cons]
    by_cases h : k0 = k
    · simp [find, h]
    · simp [find, h, ih]

theorem filter_le_of_sorted (k x : Int) (d : SizeData) (rest : map_type)
    (h : Sorted ((k, d) :: rest)) (hk : k ≤ x) :
    ((k, d) :: rest).filter (fun kv => decide (kv.1 ≤ x)) = (k, d) :: rest := by
  rw [List.filter_eq_self]
  intro kv hkv
  rw [sorted_cons] at h
  simp only [List.mem_cons] at hkv
  rcases hkv with rfl | hkv
  · simpa using hk
  · have hm : kv.1 ∈ keys rest := List.mem_map_of_mem Prod.fst hkv
    have := h.1 kv.1 hm
    simp only [decide_eq_true_eq]
    omega

theorem cumCount_cons_of_le (k x : Int) (d : SizeData) (rest : map_type)
    (h : Sorted ((k, d) :: rest)) (hk : k ≤ x) :
    cumCount ((k, d) :: rest) x = sumCounts ((k, d) :: rest) := by
  unfold cumCount
  rw [filter_le_of_sorted k x d rest h hk]

theorem cumCount_cons_of_gt (k x : Int) (d : SizeData) (rest : map_type) (hk : ¬ k ≤ x) :
    cumCount ((k, d) :: rest) x = cumCount rest x := by
  unfold cumCount
  simp [List.filter_cons, hk]

theorem cumCount_le_sumCounts (m : map_type) (x : Int) : cumCount m x ≤ sumCounts m := by
  induction m with
  | nil => simp [cumCount, sumCounts]
  | cons kv rest ih =>
    obtain ⟨k, d⟩ := kv
    simp only [cumCount, sumCounts] at ih
    by_cases hk : k ≤ x
    · simp only [cumCount, sumCounts, List.filter_cons, hk, decide_True, if_true, List.map_cons,
        List.sum_cons]
      omega
    · simp only [cumCount, sumCounts, List.filter_cons, hk, decide_False, List.map_cons,
        List.sum_cons]
      simp only [Bool.false_eq_true, if_false]
      omega

theorem cumCount_mono (m : map_type) (x y : Int) (hxy : x ≤ y) : cumCount m x ≤ cumCount m y := by
  induction m with
  | nil => simp [cumCount, sumCounts]
  | cons kv rest ih =>
    obtain ⟨k, d⟩ := kv
    simp only [cumCount, sumCounts] at ih
    by_cases hx : k ≤ x
    · have hy : k ≤ y := le_trans hx hxy
      simp only [cumCount, sumCounts, List.filter_cons, hx, hy, decide_True, if_true,
        List.map_cons, List.sum_cons]
      omega
    · by_cases hy : k ≤ y
      · simp only [cumCount, sumCounts, List.filter_cons, hx, hy, decide_True, decide_False,
          if_true, List.map_cons, List.sum_cons]
        simp only [Bool.false_eq_true, if_false]
        omega
      · simp only [cumCount, sumCounts, List.filter_cons, hx, hy, decide_False]
        simp only [Bool.false_eq_true, if_false]
        exact ih

theorem cumCount_of_all_le (m : map_type) (x : Int) (h : ∀ k ∈ keys m, k ≤ x) :
    cumCount m x = sumCounts m := by
  unfold cumCount
  congr 1
  rw [List.filter_eq_self]
  intro kv hkv
  have := h kv.1 (List.mem_map_of_mem Prod.fst hkv)
  simpa using this

theorem floorEntry_eq_none_iff (m : map_type) (x : Int) :
    floorEntry m x = none ↔ ∀ k ∈ keys m, x < k := by
  induction m with
  | nil => simp [floorEntry, keys]
  | cons kv rest ih =>
    obtain ⟨k, d⟩ := kv
    simp only [keys] at ih
    by_cases hk : k ≤ x
    · simp only [floorEntry, hk, if_true, keys, List.map_cons, List.mem_cons, forall_eq_or_imp]
      constructor
      · intro h; cases h
      · intro h; omega
    · simp only [floorEntry, hk, if_false, keys, List.map_cons, List.mem_cons,
        forall_eq_or_imp, ih]
      constructor
      · intro h; exact ⟨by omega, h⟩
      · intro h; exact h.2

theorem floorEntry_spec (m : map_type) (x v : Int) (d : SizeData) (hs : Sorted m)
    (h : floorEntry m x = some (v, d)) :
    v ≤ x ∧ find m v = some d ∧ ∀ k ∈ keys m, k ≤ x → k ≤ v := by
  induction m with
  | nil => simp [floorEntry] at h
  | cons kv rest ih =>
    obtain ⟨k, d0⟩ := kv
    rw [sorted_cons] at hs
    by_cases hk : k ≤ x
    · simp only [floorEntry, hk, if_true, Option.some.injEq, Prod.mk.injEq] at h
      obtain ⟨rfl, rfl⟩ := h
      refine ⟨hk, by simp [find], ?_⟩
      intro k1 hk1 _
      simp only [keys, List.map_cons, List.mem_cons] at hk1
      rcases hk1 with rfl | hk1
      · exact le_refl _
      · have := hs.1 k1 hk1
        omega
    · simp only [floorEntry, hk, if_false] at h
      obtain ⟨h1, h2, h3⟩ := ih hs.2 h
      have hne : ¬ k = v := by omega
      refine ⟨h1, by simp [find, hne, h2], ?_⟩
      intro k1 hk1 hle
      simp only [keys, List.map_cons, List.mem_cons] at hk1
      rcases hk1 with rfl | hk1
      · exact absurd hle hk
      · exact h3 k1 hk1 hle

theorem cdfValue_cumulate (rnd : ℚ → ℚ) (t : Nat) (m : map_type) (x : Int) (hs : Sorted m) :
    cdfValue (cumulate rnd t m).2 x
      = if ∃ k ∈ keys m, k ≤ x then rnd ((cumCount m x : ℚ) / (t : ℚ)) else 0 := by
  induction m with
  | nil => simp [cdfValue, cumulate, floorEntry, keys]
  | cons kv rest ih =>
    obtain ⟨k, d⟩ := kv
    rw [cumulate_snd_cons]
    by_cases hk : k ≤ x
    · have hex : ∃ k1 ∈ keys ((k, d) :: rest), k1 ≤ x := ⟨k, by simp [keys], hk⟩
      rw [if_pos hex, cumCount_cons_of_le k x d rest hs hk]
      simp [cdfValue, floorEntry, hk]
    · have hs2 := ((sorted_cons _ _ _).1 hs).2
      have hiff : (∃ k1 ∈ keys ((k, d) :: rest), k1 ≤ x) ↔ ∃ k1 ∈ keys rest, k1 ≤ x := by
        simp only [keys, List.map_cons, List.mem_cons, exists_eq_or_imp]
        constructor
        · rintro (h | h)
          · exact absurd h hk
          · exact h
        · intro h; exact Or.inr h
      have := ih hs2
      simp only [cdfValue] at this
      simp only [cdfValue, floorEntry, hk, if_false, cumCount_cons_of_gt k x d rest hk, this, hiff]

theorem smallestWithCprob_isSome (p : ℚ) (m : map_type) (k : Int) (d : SizeData)
    (hmem : (k, d) ∈ m) (hp : p ≤ d.cprob) : (smallestWithCprob p m).isSome := by
  induction m with
  | nil => simp at hmem
  | cons kv rest ih =>
    obtain ⟨k0, d0⟩ := kv
    simp only [List.mem_cons, Prod.mk.injEq] at hmem
    cases hr : smallestWithCprob p rest with
    | some v => simp [smallestWithCprob, hr]
    | none =>
      rcases hmem with ⟨rfl, rfl⟩ | hmem
      · simp [smallestWithCprob, hr, hp]
      · have := ih hmem
        rw [hr] at this
        simp at this

theorem smallestWithCprob_spec (p : ℚ) (m : map_type) (v : Int) (hs : Sorted m)
    (h : smallestWithCprob p m = some v) :
    (∃ d, find m v = some d ∧ p ≤ d.cprob)
      ∧ ∀ w d, (w, d) ∈ m → p ≤ d.cprob → v ≤ w := by
  induction m with
  | nil => simp [smallestWithCprob] at h
  | cons kv rest ih =>
    obtain ⟨k0, d0⟩ := kv
    rw [sorted_cons] at hs
    cases hr : smallestWithCprob p rest with
    | some v1 =>
      simp only [smallestWithCprob, hr, Option.some.injEq] at h
      subst h
      obtain ⟨⟨d, hd, hpd⟩, hmin⟩ := ih hs.2 hr
      have hv : v1 ∈ keys rest := by
        rw [← find_isSome_iff, hd]; rfl
      have hlt := hs.1 v1 hv
      have hne : ¬ k0 = v1 := by omega
      refine ⟨⟨d, by simp [find, hne, hd], hpd⟩, ?_⟩
      intro w dw hw hpw
      simp only [List.mem_cons, Prod.mk.injEq] at hw
      rcases hw with ⟨rfl, rfl⟩ | hw
      · omega
      · exact hmin w dw hw hpw
    | none =>
      simp only [smallestWithCprob, hr] at h
      by_cases hp : p ≤ d0.cprob
      · simp only [hp, if_true, Option.some.injEq] at h
        subst h
        refine ⟨⟨d0, by simp [find], hp⟩, ?_⟩
        intro w dw hw hpw
        simp only [List.mem_cons, Prod.mk.injEq] at hw
        rcases hw with ⟨rfl, rfl⟩ | hw
        · exact le_refl _
        · have := smallestWithCprob_isSome p rest w dw hw hpw
          rw [hr] at this
          simp at this
      · simp [hp] at h

theorem getD_map_range (f : Nat → ℚ) (n i : Nat) (h : i < n) (d : ℚ) :
    ((List.range n).map f).getD i d = f i := by
  simp [List.getD_eq_getElem?_getD, List.getElem?_map, List.getElem?_range h]

theorem length_buildQuantiles (rnd : ℚ → ℚ) (m : map_type) (old : List ℚ) :
    (buildQuantiles rnd m old).length = _quantileNum := by
  simp [buildQuantiles]

theorem buildQuantiles_idem (rnd : ℚ → ℚ) (m : map_type) (old : List ℚ) :
    buildQuantiles rnd m (buildQuantiles rnd m old) = buildQuantiles rnd m old := by
  unfold buildQuantiles
  apply List.map_congr_left
  intro i hi
  rw [List.mem_range] at hi
  cases hsm : smallestWithCprob ((i : ℚ) / (_quantileNum : ℚ)) m with
  | some v => rfl
  | none =>
    simp only
    rw [getD_map_range _ _ _ hi]
    simp only [hsm]

namespace SizeDistribution

theorem calcStats_totalCount (rnd : ℚ → ℚ) (s : SizeDistribution) :
    (calcStats rnd s)._totalCount = s._totalCount := by
  by_cases h : s._totalCount = 0 <;> simp [calcStats, h]

theorem calcStats_isStatsComputed (rnd : ℚ → ℚ) (s : SizeDistribution) :
    (calcStats rnd s)._isStatsComputed = true := by
  by_cases h : s._totalCount = 0 <;> simp [calcStats, h]

theorem calcStats_sizeMap (rnd : ℚ → ℚ) (s : SizeDistribution) :
    (calcStats rnd s)._sizeMap
      = if s._totalCount = 0 then s._sizeMap
        else (cumulate rnd s._totalCount s._sizeMap).2 := by
  by_cases h : s._totalCount = 0 <;> simp [calcStats, h]

theorem calcStats_quantiles (rnd : ℚ → ℚ) (s : SizeDistribution) :
    (calcStats rnd s)._quantiles
      = if s._totalCount = 0 then s._quantiles
        else buildQuantiles rnd (cumulate rnd s._totalCount s._sizeMap).2 s._quantiles := by
  by_cases h : s._totalCount = 0 <;> simp [calcStats, h]

theorem calcStats_flag (rnd : ℚ → ℚ) (s : SizeDistribution) (b : Bool) :
    calcStats rnd { s with _isStatsComputed := b } = calcStats rnd s := by
  by_cases h : s._totalCount = 0 <;> simp [calcStats, h]

theorem calcStats_idem (rnd : ℚ → ℚ) (s : SizeDistribution) :
    calcStats rnd (calcStats rnd s) = calcStats rnd s := by
  by_cases h : s._totalCount = 0
  · simp [calcStats, h]
  · simp [calcStats, h, cumulate_idem, buildQuantiles_idem]

theorem ensureFresh_isStatsComputed (rnd : ℚ → ℚ) (s : SizeDistribution) :
    (ensureFresh rnd s)._isStatsComputed = true := by
  unfold ensureFresh
  by_cases h : s._isStatsComputed = true
  · simp [h]
  · simp [h, calcStats_isStatsComputed]

theorem ensureFresh_idem (rnd : ℚ → ℚ) (s : SizeDistribution) :
    ensureFresh rnd (ensureFresh rnd s) = ensureFresh rnd s := by
  have h := ensureFresh_isStatsComputed rnd s
  show (if (ensureFresh rnd s)._isStatsComputed = true then ensureFresh rnd s
    else calcStats rnd (ensureFresh rnd s)) = ensureFresh rnd s
  rw [if_pos h]

theorem ensureFresh_totalCount (rnd : ℚ → ℚ) (s : SizeDistribution) :
    (ensureFresh rnd s)._totalCount = s._totalCount := by
  unfold ensureFresh
  split
  · rfl
  · exact calcStats_totalCount rnd s

theorem ensureFresh_keys (rnd : ℚ → ℚ) (s : SizeDistribution) :
    keys (ensureFresh rnd s)._sizeMap = keys s._sizeMap := by
  unfold ensureFresh
  split
  · rfl
  · rw [calcStats_sizeMap]
    split
    · rfl
    · exact keys_cumulate _ _ _

theorem ensureFresh_counts (rnd : ℚ → ℚ) (s : SizeDistribution) :
    (ensureFresh rnd s)._sizeMap.map (fun kv => (kv.1, kv.2.count))
      = s._sizeMap.map (fun kv => (kv.1, kv.2.count)) := by
  unfold ensureFresh
  split
  · rfl
  · rw [calcStats_sizeMap]
    split
    · rfl
    · exact counts_cumulate _ _ _

theorem ensureFresh_of_valid (rnd : ℚ → ℚ) (s : SizeDistribution) (hv : CacheValid rnd s) :
    ensureFresh rnd s = calcStats rnd s := by
  unfold ensureFresh
  by_cases h : s._isStatsComputed = true
  · have := hv h
    rw [calcStats_flag] at this
    simp [h, this]
  · simp [h]

theorem cacheValid_of_not_computed (rnd : ℚ → ℚ) (s : SizeDistribution)
    (h : s._isStatsComputed = false) : CacheValid rnd s := by
  intro h1
  rw [h] at h1
  cases h1

theorem cacheValid_calcStats (rnd : ℚ → ℚ) (s : SizeDistribution) :
    CacheValid rnd (calcStats rnd s) := by
  intro _
  rw [calcStats_flag, calcStats_idem]

theorem cacheValid_ensureFresh (rnd : ℚ → ℚ) (s : SizeDistribution) (hv : CacheValid rnd s) :
    CacheValid rnd (ensureFresh rnd s) := by
  rw [ensureFresh_of_valid rnd s hv]
  exact cacheValid_calcStats rnd s

theorem cdf_fst_eq (rnd : ℚ → ℚ) (s : SizeDistribution) (x : Int) (hv : CacheValid rnd s)
    (hs : Sorted s._sizeMap) (ht : s._totalCount ≠ 0) :
    (cdf rnd s x).1
      = if ∃ k ∈ keys s._sizeMap, k ≤ x
        then rnd ((cumCount s._sizeMap x : ℚ) / (s._totalCount : ℚ)) else 0 := by
  unfold cdf
  simp only
  rw [ensureFresh_of_valid rnd s hv, calcStats_sizeMap, if_neg ht]
  exact cdfValue_cumulate rnd _ _ x hs

end SizeDistribution

theorem cumCount_updateAt_subscript (m : map_type) (v x : Int)
    (hlt : sumCounts m + 1 < UNSIGNED_MOD) :
    cumCount (updateAt incrCount (subscript m v) v) x
      = cumCount m x + (if v ≤ x then 1 else 0) := by
  induction m with
  | nil =>
    by_cases hv : v ≤ x
    · simp [subscript, updateAt, cumCount, sumCounts, incrCount, incrUnsigned, UNSIGNED_MOD, hv]
    · simp [subscript, updateAt, cumCount, sumCounts, hv]
  | cons kv rest ih =>
    obtain ⟨k, d⟩ := kv
    have hsum : sumCounts ((k, d) :: rest) = d.count + sumCounts rest := by
      simp [sumCounts]
    rw [hsum] at hlt
    by_cases h1 : v > k
    · have hvk : ¬ v = k := by omega
      simp only [subscript, h1, if_true, updateAt]
      by_cases hv : v ≤ x
      · by_cases hk : k ≤ x
        · simp [cumCount, sumCounts, List.filter_cons, hv, hk, incrCount, incrUnsigned,
            UNSIGNED_MOD]
          omega
        · simp [cumCount, sumCounts, List.filter_cons, hv, hk, incrCount, incrUnsigned,
            UNSIGNED_MOD]
          omega
      · by_cases hk : k ≤ x
        · simp [cumCount, sumCounts, List.filter_cons, hv, hk]
        · simp [cumCount, sumCounts, List.filter_cons, hv, hk]
    · by_cases h2 : k > v
      · have hkv : ¬ k = v := by omega
        have ih2 := ih (by omega)
        simp only [subscript, h1, h2, if_true, if_false, updateAt, hkv]
        by_cases hk : k ≤ x
        · have e1 : ∀ l : map_type, cumCount ((k, d) :: l) x = d.count + cumCount l x := by
            intro l
            simp [cumCount, sumCounts, List.filter_cons, hk]
          rw [e1, e1, ih2]
          omega
        · rw [cumCount_cons_of_gt _ _ _ _ hk, cumCount_cons_of_gt _ _ _ _ hk, ih2]
      · have hkv : k = v := by omega
        subst hkv
        have hd : (d.count + 1) % UNSIGNED_MOD = d.count + 1 := Nat.mod_eq_of_lt (by omega)
        simp only [subscript, h1, h2, if_false, updateAt, if_true]
        by_cases hk : k ≤ x
        · simp [cumCount, sumCounts, List.filter_cons, hk, incrCount, incrUnsigned, hd]
          omega
        · simp [cumCount, sumCounts, List.filter_cons, hk]

namespace SizeDistribution

theorem isStatsComputed_addObservations_new (xs : List Int) :
    (new.addObservations xs)._isStatsComputed = false := by
  induction xs using List.reverseRecOn with
  | nil => rfl
  | append_singleton xs x _ =>
    rw [addObservations_snoc]
    rfl

theorem mem_keys_addObservations_new (xs : List Int) (k : Int) :
    k ∈ keys (new.addObservations xs)._sizeMap ↔ k ∈ xs := by
  rw [← find_isSome_iff, find_addObservations_new]
  by_cases h : k ∈ xs <;> simp [h]

theorem cumCount_addObservations_new (xs : List Int) (x : Int)
    (hlt : xs.length < UNSIGNED_MOD) :
    cumCount (new.addObservations xs)._sizeMap x = xs.countP (fun v => decide (v ≤ x)) := by
  induction xs using List.reverseRecOn with
  | nil => rfl
  | append_singleton xs y ih =>
    simp only [List.length_append, List.length_singleton] at hlt
    have hx := ih (by omega)
    have hsum := sumCounts_addObservations_new xs (by omega)
    rw [addObservations_snoc, addObservation_sizeMap,
      cumCount_updateAt_subscript _ _ _ (by omega), hx, List.countP_append]
    by_cases hy : y ≤ x
    · simp [hy]
    · simp [hy]

theorem cdf_addObservations_new (rnd : ℚ → ℚ) (xs : List Int) (x : Int) (hne : xs ≠ [])
    (hlt : xs.length < UNSIGNED_MOD) :
    (cdf rnd (new.addObservations xs) x).1
      = if ∃ v ∈ xs, v ≤ x
        then rnd ((xs.countP (fun v => decide (v ≤ x)) : ℚ) / (xs.length : ℚ)) else 0 := by
  have hpos : 0 < xs.length := List.length_pos.2 hne
  have ht : (new.addObservations xs)._totalCount = xs.length := by
    rw [totalCount_addObservations_new]
    exact Nat.mod_eq_of_lt hlt
  rw [cdf_fst_eq rnd _ x
      (cacheValid_of_not_computed rnd _ (isStatsComputed_addObservations_new xs))
      (sorted_addObservations _ _ sorted_new) (by omega),
    ht, cumCount_addObservations_new xs x hlt]
  simp only [mem_keys_addObservations_new]

theorem cdf_zero_two_values (a b : Nat) (ha : 0 < a) (hb : 0 < b)
    (ht : (a + b) % UNSIGNED_MOD ≠ 0) :
    (cdf id (new.addObservations (List.replicate a 0 ++ List.replicate b 1)) 0).1
      = ((a % UNSIGNED_MOD : Nat) : ℚ) / (((a + b) % UNSIGNED_MOD : Nat) : ℚ) := by
  have htot := totalCount_two_values a b
  rw [cdf_fst_eq id _ 0
      (cacheValid_of_not_computed id _ (isStatsComputed_addObservations_new _))
      (sorted_addObservations _ _ sorted_new) (by rw [htot]; exact ht),
    htot, sizeMap_two_values a b ha hb]
  simp [keys, cumCount, sumCounts, List.filter_cons]

theorem cdf_one_two_values (a b : Nat) (ha : 0 < a) (hb : 0 < b)
    (ht : (a + b) % UNSIGNED_MOD ≠ 0) :
    (cdf id (new.addObservations (List.replicate a 0 ++ List.replicate b 1)) 1).1
      = ((b % UNSIGNED_MOD + a % UNSIGNED_MOD : Nat) : ℚ)
          / (((a + b) % UNSIGNED_MOD : Nat) : ℚ) := by
  have htot := totalCount_two_values a b
  rw [cdf_fst_eq id _ 1
      (cacheValid_of_not_computed id _ (isStatsComputed_addObservations_new _))
      (sorted_addObservations _ _ sorted_new) (by rw [htot]; exact ht),
    htot, sizeMap_two_values a b ha hb]
  simp [keys, cumCount, sumCounts, List.filter_cons]

theorem countP_le_zero_two_values (a b : Nat) :
    (List.replicate a (0 : Int) ++ List.replicate b 1).countP (fun v => decide (v ≤ 0)) = a := by
  rw [List.countP_append]
  have h1 : (List.replicate a (0 : Int)).countP (fun v => decide (v ≤ 0)) = a := by
    induction a with
    | zero => rfl
    | succ n ih => simp [List.replicate_succ, List.countP_cons, ih]
  have h2 : (List.replicate b (1 : Int)).countP (fun v => decide (v ≤ 0)) = 0 := by
    induction b with
    | zero => rfl
    | succ n ih => simp [List.replicate_succ, List.countP_cons, ih]
  rw [h1, h2]
  rfl

theorem cdf_ne_fraction_two_values (a b : Nat) (ha : 0 < a) (hb : 0 < b)
    (ht : (a + b) % UNSIGNED_MOD ≠ 0) (hw : a % UNSIGNED_MOD ≠ a) :
    (cdf id (new.addObservations (List.replicate a 0 ++ List.replicate b 1)) 0).1
      ≠ (((List.replicate a (0 : Int) ++ List.replicate b 1).countP
            (fun v => decide (v ≤ 0)) : Nat) : ℚ)
          / ((new.addObservations
              (List.replicate a 0 ++ List.replicate b 1)).totalObservations : ℚ) := by
  unfold totalObservations
  rw [cdf_zero_two_values a b ha hb ht, countP_le_zero_two_values, totalCount_two_values]
  intro h
  have ht2 : (((a + b) % UNSIGNED_MOD : Nat) : ℚ) ≠ 0 := by exact_mod_cast ht
  rw [div_left_inj' ht2] at h
  exact hw (by exact_mod_cast h)

end SizeDistribution

theorem mem_of_find_eq_some (m : map_type) (k : Int) (d : SizeData)
    (h : find m k = some d) : (k, d) ∈ m := by
  induction m with
  | nil => simp [find] at h
  | cons kv rest ih =>
    obtain ⟨k0, d0⟩ := kv
    by_cases hk : k0 = k
    · simp only [find, hk, if_true, Option.some.injEq] at h
      subst hk; subst h
      exact List.mem_cons_self _ _
    · simp only [find, hk, if_false] at h
      exact List.mem_cons_of_mem _ (ih h)

theorem exists_key_of_sumCounts_pos (m : map_type) (h : 0 < sumCounts m) :
    ∃ k d rest, m = (k, d) :: rest := by
  cases m with
  | nil => simp [sumCounts] at h
  | cons kv rest => exact ⟨kv.1, kv.2, rest, rfl⟩

theorem getD_replicate_zero (n i : Nat) : (List.replicate n (0 : ℚ)).getD i 0 = 0 := by
  rw [List.getD_eq_getElem?_getD, List.getElem?_replicate]
  split <;> rfl

theorem bucket_le (p : ℚ) : bucket p ≤ 999 := by
  unfold bucket _quantileNum
  omega

theorem bucket_eq_floor (p : ℚ) (h0 : 0 ≤ p) (h1 : p < 1) :
    (bucket p : Int) = ⌊p * 1000⌋ := by
  have hf0 : 0 ≤ ⌊p * 1000⌋ := Int.floor_nonneg.2 (by positivity)
  have hf1 : ⌊p * 1000⌋ < 1000 := by
    rw [Int.floor_lt]
    push_cast
    linarith
  have e : ((_quantileNum : Nat) : ℚ) = 1000 := by norm_num [_quantileNum]
  unfold bucket
  rw [e]
  simp only [_quantileNum]
  omega

namespace SizeDistribution

theorem cdf_snd (rnd : ℚ → ℚ) (s : SizeDistribution) (x : Int) :
    (cdf rnd s x).2 = ensureFresh rnd s := rfl

theorem cdf_fst (rnd : ℚ → ℚ) (s : SizeDistribution) (x : Int) :
    (cdf rnd s x).1 = cdfValue (ensureFresh rnd s)._sizeMap x := rfl

theorem quantile_snd (rnd : ℚ → ℚ) (s : SizeDistribution) (p : ℚ) :
    (quantile rnd s p).2 = ensureFresh rnd s := rfl

theorem quantile_fst (rnd : ℚ → ℚ) (s : SizeDistribution) (p : ℚ) :
    (quantile rnd s p).1 = truncToInt ((ensureFresh rnd s)._quantiles.getD (bucket p) 0) := rfl

theorem ensureFresh_new (rnd : ℚ → ℚ) :
    ensureFresh rnd new = { new with _isStatsComputed := true } := by
  simp [ensureFresh, calcStats, new]

theorem cdf_max_ne_one_two_values (a b : Nat) (ha : 0 < a) (hb : 0 < b)
    (ht : (a + b) % UNSIGNED_MOD ≠ 0)
    (hne : b % UNSIGNED_MOD + a % UNSIGNED_MOD ≠ (a + b) % UNSIGNED_MOD) :
    (∀ v ∈ List.replicate a (0 : Int) ++ List.replicate b 1, v ≤ 1)
      ∧ 0 < (new.addObservations (List.replicate a 0 ++ List.replicate b 1)).totalObservations
      ∧ (cdf id (new.addObservations (List.replicate a 0 ++ List.replicate b 1)) 1).1 ≠ 1 := by
  refine ⟨?_, ?_, ?_⟩
  · intro v hv
    rw [List.mem_append, List.mem_replicate, List.mem_replicate] at hv
    rcases hv with ⟨_, rfl⟩ | ⟨_, rfl⟩ <;> decide
  · unfold totalObservations
    rw [totalCount_two_values]
    omega
  · rw [cdf_one_two_values a b ha hb ht]
    intro h
    have ht2 : (((a + b) % UNSIGNED_MOD : Nat) : ℚ) ≠ 0 := by exact_mod_cast ht
    rw [div_eq_one_iff_eq ht2] at h
    exact hne (by exact_mod_cast h)

end SizeDistribution

namespace SizeDistribution

theorem quantiles_entry (rnd : ℚ → ℚ) (s : SizeDistribution) (i : Nat) (hmono : Monotone rnd)
    (h1 : rnd 1 = 1) (hs : Sorted s._sizeMap) (hpos : 0 < s._totalCount)
    (hsum : s._totalCount ≤ sumCounts s._sizeMap) (hi : i < 1000) :
    ∃ v d, find (calcStats rnd s)._sizeMap v = some d
      ∧ (i : ℚ) / 1000 ≤ d.cprob
      ∧ (∀ w dw, find (calcStats rnd s)._sizeMap w = some dw → (i : ℚ) / 1000 ≤ dw.cprob → v ≤ w)
      ∧ (calcStats rnd s)._quantiles.getD i 0 = rnd (v : ℚ) := by
  have ht : s._totalCount ≠ 0 := by omega
  have htq : (0 : ℚ) < (s._totalCount : ℚ) := by exact_mod_cast hpos
  have e : ((_quantileNum : Nat) : ℚ) = 1000 := by norm_num [_quantileNum]
  have hiq : (i : ℚ) / 1000 ≤ 1 := by
    rw [div_le_one (by norm_num)]
    have : i ≤ 1000 := by omega
    exact_mod_cast this
  rw [calcStats_sizeMap, calcStats_quantiles, if_neg ht, if_neg ht]
  obtain ⟨k, d, rest, hm⟩ := exists_key_of_sumCounts_pos s._sizeMap (by omega)
  have hhead : (k, (⟨d.count, rnd ((sumCounts s._sizeMap : ℚ) / (s._totalCount : ℚ))⟩ : SizeData))
      ∈ (cumulate rnd s._totalCount s._sizeMap).2 := by
    rw [hm, cumulate_snd_cons]
    exact List.mem_cons_self _ _
  have hone : (1 : ℚ) ≤ rnd ((sumCounts s._sizeMap : ℚ) / (s._totalCount : ℚ)) := by
    rw [← h1]
    apply hmono
    rw [one_le_div htq]
    exact_mod_cast hsum
  have hsome := smallestWithCprob_isSome ((i : ℚ) / 1000) _ _ _ hhead (le_trans hiq hone)
  obtain ⟨v, hv⟩ := Option.isSome_iff_exists.1 hsome
  obtain ⟨⟨dv, hfv, hpv⟩, hmin⟩ :=
    smallestWithCprob_spec _ _ v (sorted_cumulate rnd _ _ hs) hv
  refine ⟨v, dv, hfv, hpv, ?_, ?_⟩
  · intro w dw hw hpw
    exact hmin w dw (mem_of_find_eq_some _ _ _ hw) hpw
  · unfold buildQuantiles
    rw [getD_map_range _ _ _ (by simpa [_quantileNum] using hi), e]
    simp only [hv]

end SizeDistribution

/-! ## Lemmas on the persisted state -/

theorem insertPair_of_all_gt (acc : map_type) (kv : Int × SizeData)
    (h : ∀ k ∈ keys acc, k > kv.1) : insertPair acc kv = acc ++ [kv] := by
  induction acc with
  | nil => rfl
  | cons hd rest ih =>
    obtain ⟨k, d⟩ := hd
    have hk : k > kv.1 := h k (by simp [keys])
    have hnot : ¬ kv.1 > k := by omega
    have hrest : ∀ k1 ∈ keys rest, k1 > kv.1 := by
      intro k1 hk1
      exact h k1 (by simp only [keys, List.map_cons, List.mem_cons]; exact Or.inr hk1)
    simp [insertPair, hnot, hk, ih hrest]

theorem foldl_insertPair_of_sorted (acc m : map_type) (h : Sorted (acc ++ m)) :
    m.foldl insertPair acc = acc ++ m := by
  induction m generalizing acc with
  | nil => simp
  | cons kv rest ih =>
    have hgt : ∀ k ∈ keys acc, k > kv.1 := by
      intro k hk
      unfold Sorted keys at h
      rw [List.map_append, List.pairwise_append] at h
      exact h.2.2 k hk kv.1 (by simp)
    have h2 : Sorted ((acc ++ [kv]) ++ rest) := by
      rw [List.append_assoc]
      exact h
    rw [List.foldl_cons, insertPair_of_all_gt acc kv hgt, ih _ h2, List.append_assoc]
    rfl

theorem loadMapItems_saveMapItems (m acc : map_type) (rest : Archive) :
    loadMapItems m.length acc (saveMapItems m ++ rest) = some (m.foldl insertPair acc, rest) := by
  induction m generalizing acc with
  | nil => rfl
  | cons kv tl ih =>
    obtain ⟨k, d⟩ := kv
    simp only [List.length_cons, saveMapItems, SizeData.serialize_save, List.cons_append,
      List.nil_append, List.append_assoc, loadMapItems, SizeData.serialize_load, List.foldl_cons]
    exact ih _

theorem loadMap_saveMap (m : map_type) (rest : Archive) (h : Sorted m) :
    loadMap (saveMap [] m ++ rest) = some (m, rest) := by
  simp only [saveMap, List.nil_append, List.cons_append, loadMap]
  rw [loadMapItems_saveMapItems, foldl_insertPair_of_sorted [] m (by simpa using h)]
  rfl

namespace SizeDistribution

theorem serialize_load_save (s t : SizeDistribution) (rest : Archive)
    (h : Sorted s._sizeMap) :
    serialize_load ((serialize_save [] s).1 ++ rest) t
      = some (rest, { t with
          _totalCount := s._totalCount
          _sizeMap := s._sizeMap
          _isStatsComputed := false }) := by
  have e : (serialize_save [] s).1 ++ rest
      = Item.unsignedItem s._totalCount :: (saveMap [] s._sizeMap ++ rest) := by
    simp [serialize_save, saveMap]
  rw [e]
  simp only [serialize_load, loadMap_saveMap _ _ h]

theorem cdf_congr (rnd : ℚ → ℚ) (s t : SizeDistribution) (x : Int)
    (hs : CacheValid rnd s) (ht : CacheValid rnd t) (h1 : t._totalCount = s._totalCount)
    (h2 : t._sizeMap = s._sizeMap) : (cdf rnd t x).1 = (cdf rnd s x).1 := by
  rw [cdf_fst, cdf_fst, ensureFresh_of_valid rnd s hs, ensureFresh_of_valid rnd t ht,
    calcStats_sizeMap, calcStats_sizeMap, h1, h2]

end SizeDistribution

/-! ## Invariants of the reachable states -/

theorem keys_insertPair (m : map_type) (kv : Int × SizeData) :
    keys (insertPair m kv) = keys (subscript m kv.1) := by
  induction m with
  | nil => rfl
  | cons hd rest ih =>
    obtain ⟨k, d⟩ := hd
    by_cases h1 : kv.1 > k
    · simp [insertPair, subscript, h1, keys]
    · by_cases h2 : k > kv.1
      · simp only [keys] at ih
        simp [insertPair, subscript, h1, h2, keys, ih]
      · simp [insertPair, subscript, h1, h2, keys]

theorem sorted_insertPair (m : map_type) (kv : Int × SizeData) (h : Sorted m) :
    Sorted (insertPair m kv) := by
  have := sorted_subscript m kv.1 h
  unfold Sorted at *
  rw [keys_insertPair]
  exact this

theorem sorted_loadMapItems (n : Nat) (acc m : map_type) (ar rest : Archive) (h : Sorted acc)
    (hl : loadMapItems n acc ar = some (m, rest)) : Sorted m := by
  induction n generalizing acc ar with
  | zero =>
    simp only [loadMapItems, Option.some.injEq, Prod.mk.injEq] at hl
    rw [← hl.1]
    exact h
  | succ n ih =>
    cases ar with
    | nil => simp [loadMapItems] at hl
    | cons it ar1 =>
      cases it with
      | intItem k =>
        simp only [loadMapItems] at hl
        cases hd : SizeData.serialize_load ar1 with
        | none => simp [hd] at hl
        | some r =>
          obtain ⟨d, ar2⟩ := r
          simp only [hd] at hl
          exact ih _ _ (sorted_insertPair _ _ h) hl
      | unsignedItem c => simp [loadMapItems] at hl
      | floatItem q => simp [loadMapItems] at hl

theorem sorted_loadMap (m : map_type) (ar rest : Archive)
    (hl : loadMap ar = some (m, rest)) : Sorted m := by
  cases ar with
  | nil => simp [loadMap] at hl
  | cons it ar1 =>
    cases it with
    | unsignedItem n =>
      simp only [loadMap] at hl
      exact sorted_loadMapItems n [] m ar1 rest (by simp [Sorted, keys]) hl
    | intItem k => simp [loadMap] at hl
    | floatItem q => simp [loadMap] at hl

namespace SizeDistribution

theorem serialize_load_spec (s s1 : SizeDistribution) (ar ar1 : Archive)
    (h : serialize_load ar s = some (ar1, s1)) :
    s1._isStatsComputed = false ∧ Sorted s1._sizeMap ∧ s1._quantiles = s._quantiles := by
  cases ar with
  | nil => simp [serialize_load] at h
  | cons it ar0 =>
    cases it with
    | unsignedItem t =>
      simp only [serialize_load] at h
      cases hm : loadMap ar0 with
      | none => simp [hm] at h
      | some r =>
        obtain ⟨m, ar2⟩ := r
        simp only [hm, Option.some.injEq, Prod.mk.injEq] at h
        rw [← h.2]
        exact ⟨rfl, sorted_loadMap m ar0 ar2 hm, rfl⟩
    | intItem k => simp [serialize_load] at h
    | floatItem q => simp [serialize_load] at h

end SizeDistribution

theorem reachable_invariants (rnd : ℚ → ℚ) (s : SizeDistribution) (h : Reachable rnd s) :
    Sorted s._sizeMap ∧ CacheValid rnd s := by
  induction h with
  | construct =>
    exact ⟨SizeDistribution.sorted_new, SizeDistribution.cacheValid_of_not_computed _ _ rfl⟩
  | add s size _ ih =>
    exact ⟨SizeDistribution.sorted_addObservation s size ih.1,
      SizeDistribution.cacheValid_of_not_computed _ _ rfl⟩
  | queryCdf s x _ ih =>
    refine ⟨?_, SizeDistribution.cacheValid_ensureFresh rnd s ih.2⟩
    show Sorted (SizeDistribution.ensureFresh rnd s)._sizeMap
    unfold Sorted
    rw [SizeDistribution.ensureFresh_keys]
    exact ih.1
  | queryQuantile s p _ ih =>
    refine ⟨?_, SizeDistribution.cacheValid_ensureFresh rnd s ih.2⟩
    show Sorted (SizeDistribution.ensureFresh rnd s)._sizeMap
    unfold Sorted
    rw [SizeDistribution.ensureFresh_keys]
    exact ih.1
  | save s ar _ ih =>
    exact ⟨ih.1, SizeDistribution.cacheValid_of_not_computed _ _ rfl⟩
  | load s s1 ar ar1 _ hl _ =>
    obtain ⟨h1, h2, _⟩ := SizeDistribution.serialize_load_spec s s1 ar ar1 hl
    exact ⟨h2, SizeDistribution.cacheValid_of_not_computed _ _ h1⟩

/-! ## Further lemmas on the header operations -/

theorem saveMapItems_cons (k : Int) (d : SizeData) (rest : map_type) :
    saveMapItems ((k, d) :: rest)
      = Item.intItem k :: Item.unsignedItem d.count :: Item.floatItem d.cprob
          :: saveMapItems rest := rfl

theorem intItems_saveMapItems (m : map_type) : intItems (saveMapItems m) = keys m := by
  induction m with
  | nil => rfl
  | cons kv rest ih =>
    obtain ⟨k, d⟩ := kv
    simp only [keys] at ih
    simp [saveMapItems_cons, intItems, keys, ih]

theorem length_saveMapItems (m : map_type) : (saveMapItems m).length = 3 * m.length := by
  induction m with
  | nil => rfl
  | cons kv rest ih =>
    obtain ⟨k, d⟩ := kv
    simp only [saveMapItems_cons, List.length_cons, ih]
    omega

theorem nodup_keys_of_sorted (m : map_type) (h : Sorted m) : (keys m).Nodup := by
  unfold Sorted at h
  exact h.imp (fun hab => ne_of_gt hab)

namespace SizeDistribution

theorem eq_of_fields (a b : SizeDistribution) (h1 : a._isStatsComputed = b._isStatsComputed)
    (h2 : a._totalCount = b._totalCount) (h3 : a._quantiles = b._quantiles)
    (h4 : a._sizeMap = b._sizeMap) : a = b := by
  cases a
  cases b
  simp only at h1 h2 h3 h4
  subst h1 h2 h3 h4
  rfl

theorem serialize_save_fst (ar : Archive) (s : SizeDistribution) :
    (serialize_save ar s).1
      = ar ++ Item.unsignedItem s._totalCount :: Item.unsignedItem s._sizeMap.length
          :: saveMapItems s._sizeMap := by
  simp [serialize_save, saveMap]

theorem serialize_save_snd (ar : Archive) (s : SizeDistribution) :
    (serialize_save ar s).2 = { s with _isStatsComputed := false } := rfl

theorem quantiles_addObservations (s : SizeDistribution) (xs : List Int) :
    (s.addObservations xs)._quantiles = s._quantiles := by
  induction xs using List.reverseRecOn with
  | nil => rfl
  | append_singleton xs x ih =>
    rw [addObservations_snoc, addObservation_quantiles, ih]

theorem addObservations_perm (xs ys : List Int) (h : ys.Perm xs) :
    new.addObservations ys = new.addObservations xs := by
  apply eq_of_fields
  · rw [isStatsComputed_addObservations_new, isStatsComputed_addObservations_new]
  · rw [totalCount_addObservations_new, totalCount_addObservations_new, h.length_eq]
  · rw [quantiles_addObservations, quantiles_addObservations]
  · apply sorted_ext _ _ (sorted_addObservations _ _ sorted_new)
      (sorted_addObservations _ _ sorted_new)
    intro k
    rw [find_addObservations_new, find_addObservations_new, h.count_eq k]
    by_cases hk : k ∈ xs
    · rw [if_pos hk, if_pos (h.mem_iff.2 hk)]
    · rw [if_neg hk, if_neg (fun hy => hk (h.mem_iff.1 hy))]

theorem totalObservations_wraps (n : Nat) (v : Int) (hw : n % UNSIGNED_MOD + 1 = UNSIGNED_MOD) :
    (new.addObservations (List.replicate n v)).totalObservations = UNSIGNED_MOD - 1
      ∧ ((new.addObservations (List.replicate n v)).addObservation v).totalObservations = 0
      ∧ ((new.addObservations (List.replicate n v)).addObservation v).totalObservations
          < (new.addObservations (List.replicate n v)).totalObservations := by
  have ht := totalCount_replicate n v
  have h1 : (new.addObservations (List.replicate n v)).totalObservations = UNSIGNED_MOD - 1 := by
    unfold totalObservations
    rw [ht]
    omega
  have h2 : ((new.addObservations (List.replicate n v)).addObservation v).totalObservations
      = 0 := by
    unfold totalObservations
    rw [addObservation_totalCount, ht]
    unfold incrUnsigned
    rw [hw, Nat.mod_self]
  refine ⟨h1, h2, ?_⟩
  rw [h1, h2]
  unfold UNSIGNED_MOD
  norm_num

theorem ensureFresh_quantiles_length (rnd : ℚ → ℚ) (s : SizeDistribution)
    (h : s._quantiles.length = _quantileNum) :
    (ensureFresh rnd s)._quantiles.length = _quantileNum := by
  unfold ensureFresh
  split
  · exact h
  · rw [calcStats_quantiles]
    split
    · exact h
    · exact length_buildQuantiles _ _ _

theorem quantiles_length_of_fresh (rnd : ℚ → ℚ) (s : SizeDistribution) (hv : CacheValid rnd s)
    (hf : s._isStatsComputed = true) (hpos : 0 < s._totalCount) :
    s._quantiles.length = _quantileNum := by
  have h := hv hf
  have ht : ¬ s._totalCount = 0 := by omega
  have hq := calcStats_quantiles rnd { s with _isStatsComputed := false }
  rw [h] at hq
  simp only [ht, if_false] at hq
  rw [hq]
  exact length_buildQuantiles _ _ _

end SizeDistribution

theorem reachable_quantiles_length (rnd : ℚ → ℚ) (s : SizeDistribution)
    (h : Reachable rnd s) : s._quantiles.length = _quantileNum := by
  induction h with
  | construct => simp [SizeDistribution.new]
  | add s size _ ih => exact ih
  | queryCdf s x _ ih => exact SizeDistribution.ensureFresh_quantiles_length rnd s ih
  | queryQuantile s p _ ih => exact SizeDistribution.ensureFresh_quantiles_length rnd s ih
  | save s ar _ ih => exact ih
  | load s s1 ar ar1 _ hl ih =>
    rw [(SizeDistribution.serialize_load_spec s s1 ar ar1 hl).2.2]
    exact ih

/-! ## The claims -/

open SizeDistribution

/-- C1 (amended): after any finite sequence of `addObservation` calls on a freshly
constructed accumulator, `totalObservations()` is the number of calls modulo `2 ^ 32`;
it is the number of calls itself whenever fewer than `2 ^ 32` calls were made. -/
theorem C1_totalObservations_eq_length_mod (xs : List Int) :
    (new.addObservations xs).totalObservations = xs.length % 2 ^ 32 :=
  totalCount_addObservations_new xs

/-- C1 as stated fails: after `2 ^ 32` calls `totalObservations()` is not the number of
calls (it is `0`). -/
theorem C1_counterexample :
    (new.addObservations (List.replicate (2 ^ 32) 0)).totalObservations
      ≠ (List.replicate (2 ^ 32) (0 : Int)).length :=
  totalObservations_replicate_ne (2 ^ 32) 0 (by norm_num [UNSIGNED_MOD])

/-- C2 (amended): in every state reached from a fresh accumulator by `addObservation`
calls, `_totalCount` is the sum of the `count` fields of the records of `_sizeMap`
modulo `2 ^ 32`, and it is that sum itself when fewer than `2 ^ 32` calls were made. -/
theorem C2_totalCount_eq_sumCounts (xs : List Int) :
    (new.addObservations xs)._totalCount
        = sumCounts (new.addObservations xs)._sizeMap % 2 ^ 32
      ∧ (xs.length < 2 ^ 32 →
          (new.addObservations xs)._totalCount
            = sumCounts (new.addObservations xs)._sizeMap) := by
  constructor
  · rw [totalCount_addObservations_new]
    exact (sumCounts_addObservations_new_mod xs).symm
  · intro hlt
    rw [totalCount_addObservations_new, sumCounts_addObservations_new xs hlt]
    exact Nat.mod_eq_of_lt hlt

/-- C2 at a concrete sequence of three calls: the total is the sum of the counts. -/
theorem C2_totalCount_eq_sumCounts_witness :
    [(5 : Int), 7, 5].length < 2 ^ 32 ∧
      (new.addObservations [5, 7, 5])._totalCount
        = sumCounts (new.addObservations [5, 7, 5])._sizeMap :=
  ⟨by decide, (C2_totalCount_eq_sumCounts [5, 7, 5]).2 (by decide)⟩

/-- C2 as stated fails: after `2 ^ 31` observations of `0` followed by `2 ^ 31`
observations of `1`, `_totalCount` (which is `0`) differs from the sum of the two counts
(which is `2 ^ 32`). -/
theorem C2_counterexample :
    (new.addObservations (List.replicate (2 ^ 31) 0 ++ List.replicate (2 ^ 31) 1))._totalCount
      ≠ sumCounts
          (new.addObservations (List.replicate (2 ^ 31) 0 ++ List.replicate (2 ^ 31) 1))._sizeMap :=
  totalCount_ne_sumCounts_two_values (2 ^ 31) (2 ^ 31) (by norm_num) (by norm_num)
    (by norm_num [UNSIGNED_MOD])

/-- C3 (amended): on every accumulator state (a map with its ordering invariant) and every
integer `value`, `addObservation(value)` yields a state in which the record of `value` has
the previous count plus one modulo `2 ^ 32` and the previous `cprob`, or count `1` and
`cprob` `0` when `value` was not a key; `_totalCount` is the previous one plus one modulo
`2 ^ 32`; `_isStatsComputed` is false. The increments are exact below `2 ^ 32 - 1`. -/
theorem C3_addObservation_effect (s : SizeDistribution) (value : Int)
    (h : Sorted s._sizeMap) :
    (∀ d, find s._sizeMap value = some d →
        find (s.addObservation value)._sizeMap value
          = some ⟨(d.count + 1) % 2 ^ 32, d.cprob⟩)
      ∧ (∀ d, find s._sizeMap value = some d → d.count + 1 < 2 ^ 32 →
        find (s.addObservation value)._sizeMap value = some ⟨d.count + 1, d.cprob⟩)
      ∧ (find s._sizeMap value = none →
        find (s.addObservation value)._sizeMap value = some ⟨1, 0⟩)
      ∧ (s.addObservation value)._totalCount = (s._totalCount + 1) % 2 ^ 32
      ∧ (s._totalCount + 1 < 2 ^ 32 →
        (s.addObservation value)._totalCount = s._totalCount + 1)
      ∧ (s.addObservation value)._isStatsComputed = false := by
  refine ⟨?_, ?_, ?_, rfl, ?_, rfl⟩
  · intro d hd
    rw [find_addObservation _ _ _ h, hd]
    simp [incrCount, incrUnsigned, UNSIGNED_MOD]
  · intro d hd hlt
    rw [find_addObservation _ _ _ h, hd]
    simp only [if_true, Option.getD_some, incrCount]
    rw [incrUnsigned_of_lt _ hlt]
  · intro hn
    rw [find_addObservation _ _ _ h, hn]
    simp [incrCount, incrUnsigned, UNSIGNED_MOD]
  · intro hlt
    rw [addObservation_totalCount]
    exact incrUnsigned_of_lt _ hlt

/-- C3 at a concrete state: the accumulator holding 100, 100, 200, 300, observing 100. -/
theorem C3_addObservation_effect_witness :
    Sorted (new.addObservations [100, 100, 200, 300])._sizeMap
      ∧ find ((new.addObservations [100, 100, 200, 300]).addObservation 100)._sizeMap 100
          = some ⟨3, 0⟩
      ∧ ((new.addObservations [100, 100, 200, 300]).addObservation 100)._totalCount = 5 :=
  ⟨by decide,
    (C3_addObservation_effect (new.addObservations [100, 100, 200, 300]) 100 (by decide)).2.1
      ⟨2, 0⟩ (by decide) (by decide),
    (C3_addObservation_effect (new.addObservations [100, 100, 200, 300]) 100 (by decide)).2.2.2.2.1
      (by decide)⟩

/-- C3 as stated fails: in the state reached by `2 ^ 32 - 1` observations of `7`, the
record of `7` has count `2 ^ 32 - 1` and `_totalCount` is `2 ^ 32 - 1`; one more
`addObservation(7)` leaves count `0` and `_totalCount` `0`, not the previous values plus
one. -/
theorem C3_counterexample :
    find (new.addObservations (List.replicate (2 ^ 32 - 1) 7))._sizeMap 7
        = some ⟨2 ^ 32 - 1, 0⟩
      ∧ (new.addObservations (List.replicate (2 ^ 32 - 1) 7))._totalCount = 2 ^ 32 - 1
      ∧ find ((new.addObservations (List.replicate (2 ^ 32 - 1) 7)).addObservation 7)._sizeMap 7
        ≠ some ⟨(2 ^ 32 - 1) + 1, 0⟩
      ∧ ((new.addObservations (List.replicate (2 ^ 32 - 1) 7)).addObservation 7)._totalCount
        ≠ (2 ^ 32 - 1) + 1 :=
  addObservation_wraps (2 ^ 32 - 1) (2 ^ 32 - 1) 7 (by norm_num)
    (by norm_num [UNSIGNED_MOD]) (by norm_num [UNSIGNED_MOD])

/-- C4: on every accumulator state and every integer `value`, `addObservation(value)`
leaves the record of every other key unchanged, removes no key, makes the key set the
previous key set with `value` added, keeps the keys strictly descending (so no key is
duplicated), and does not change the number of keys when `value` was already a key. -/
theorem C4_addObservation_frame (s : SizeDistribution) (value : Int)
    (h : Sorted s._sizeMap) :
    (∀ k, k ≠ value → find (s.addObservation value)._sizeMap k = find s._sizeMap k)
      ∧ (∀ k, k ∈ keys s._sizeMap → k ∈ keys (s.addObservation value)._sizeMap)
      ∧ (∀ k, k ∈ keys (s.addObservation value)._sizeMap ↔ k = value ∨ k ∈ keys s._sizeMap)
      ∧ Sorted (s.addObservation value)._sizeMap
      ∧ (value ∈ keys s._sizeMap →
          (keys (s.addObservation value)._sizeMap).length = (keys s._sizeMap).length)
      ∧ (value ∉ keys s._sizeMap →
          (keys (s.addObservation value)._sizeMap).length = (keys s._sizeMap).length + 1) := by
  refine ⟨?_, ?_, ?_, sorted_addObservation _ _ h, ?_, ?_⟩
  · intro k hk
    rw [find_addObservation _ _ _ h]
    simp [hk]
  · intro k hk
    rw [mem_keys_addObservation]
    exact Or.inr hk
  · intro k
    exact mem_keys_addObservation s value k
  · intro hmem
    rw [addObservation_sizeMap, keys_updateAt, subscript_of_mem _ _ h hmem]
  · intro hmem
    rw [addObservation_sizeMap, keys_updateAt]
    simp only [keys, List.length_map]
    exact length_subscript_of_not_mem _ _ hmem

/-- C4 at a concrete state: the accumulator holding 100, 100, 200, 300, observing 200
again keeps its three keys. -/
theorem C4_addObservation_frame_witness :
    Sorted (new.addObservations [100, 100, 200, 300])._sizeMap
      ∧ (keys ((new.addObservations [100, 100, 200, 300]).addObservation 200)._sizeMap).length
          = (keys (new.addObservations [100, 100, 200, 300])._sizeMap).length :=
  ⟨by decide,
    (C4_addObservation_frame (new.addObservations [100, 100, 200, 300]) 200 (by decide)).2.2.2.2.1
      (by decide)⟩

/-- C5 (amended): for every accumulator built by at least one and fewer than `2 ^ 32`
`addObservation` calls and every integer `x`, `cdf(x)` is the stored `float` of
(number of observations with value `≤ x`) / (number of observations), and `0` when `x` is
below every observed value; it is the cached cumulative probability of the largest observed
value `v ≤ x`; for an observed value `v` it is the stored `float` of the cumulative count
of `v` over `_totalCount`. After adding 100, 100, 200, 300 (with a `float` conversion that
keeps 1/2, 3/4 and 1), `totalObservations()` is 4 and `cdf` is 1/2 at 100, 3/4 at 200, 1
at 300 and 0 at 50. -/
theorem C5_cdf_eq_fraction (rnd : ℚ → ℚ) (xs : List Int) (hne : xs ≠ [])
    (hlt : xs.length < 2 ^ 32) :
    (∀ x, (cdf rnd (new.addObservations xs) x).1
        = if ∃ v ∈ xs, v ≤ x
          then rnd ((xs.countP (fun v => decide (v ≤ x)) : ℚ) / (xs.length : ℚ)) else 0)
      ∧ (∀ x v d, floorEntry (cdf rnd (new.addObservations xs) x).2._sizeMap x = some (v, d) →
          (cdf rnd (new.addObservations xs) x).1 = d.cprob
            ∧ v ∈ xs ∧ v ≤ x ∧ ∀ w ∈ xs, w ≤ x → w ≤ v)
      ∧ (∀ x, (∀ v ∈ xs, x < v) → (cdf rnd (new.addObservations xs) x).1 = 0)
      ∧ (∀ v ∈ xs, (cdf rnd (new.addObservations xs) v).1
          = rnd ((cumCount (new.addObservations xs)._sizeMap v : ℚ)
              / ((new.addObservations xs)._totalCount : ℚ)))
      ∧ (rnd (1 / 2) = 1 / 2 → rnd (3 / 4) = 3 / 4 → rnd 1 = 1 →
          (new.addObservations [100, 100, 200, 300]).totalObservations = 4
            ∧ (cdf rnd (new.addObservations [100, 100, 200, 300]) 100).1 = 1 / 2
            ∧ (cdf rnd (new.addObservations [100, 100, 200, 300]) 200).1 = 3 / 4
            ∧ (cdf rnd (new.addObservations [100, 100, 200, 300]) 300).1 = 1
            ∧ (cdf rnd (new.addObservations [100, 100, 200, 300]) 50).1 = 0) := by
  have hsorted : ∀ x, Sorted (cdf rnd (new.addObservations xs) x).2._sizeMap := by
    intro x
    show Sorted (ensureFresh rnd (new.addObservations xs))._sizeMap
    unfold Sorted
    rw [ensureFresh_keys]
    exact sorted_addObservations _ _ sorted_new
  have hkeys : ∀ x k, k ∈ keys (cdf rnd (new.addObservations xs) x).2._sizeMap ↔ k ∈ xs := by
    intro x k
    show k ∈ keys (ensureFresh rnd (new.addObservations xs))._sizeMap ↔ k ∈ xs
    rw [ensureFresh_keys, mem_keys_addObservations_new]
  refine ⟨fun x => cdf_addObservations_new rnd xs x hne hlt, ?_, ?_, ?_, ?_⟩
  · intro x v d hfe
    obtain ⟨h1, h2, h3⟩ := floorEntry_spec _ x v d (hsorted x) hfe
    have hv : v ∈ xs := by
      rw [← hkeys x v, ← find_isSome_iff, h2]
      rfl
    refine ⟨?_, hv, h1, ?_⟩
    · show cdfValue (cdf rnd (new.addObservations xs) x).2._sizeMap x = d.cprob
      simp only [cdfValue, hfe]
    · intro w hw hwx
      exact h3 w ((hkeys x w).2 hw) hwx
  · intro x hx
    rw [cdf_addObservations_new rnd xs x hne hlt, if_neg]
    rintro ⟨v, hv, hvx⟩
    have := hx v hv
    omega
  · intro v hv
    have ht : (new.addObservations xs)._totalCount = xs.length := by
      rw [totalCount_addObservations_new]
      exact Nat.mod_eq_of_lt hlt
    rw [cdf_addObservations_new rnd xs v hne hlt, if_pos ⟨v, hv, le_refl v⟩, ht,
      cumCount_addObservations_new xs v hlt]
  · intro h12 h34 h1
    have hl : ([100, 100, 200, 300] : List Int).length < UNSIGNED_MOD := by decide
    have hn : ([100, 100, 200, 300] : List Int) ≠ [] := by decide
    refine ⟨by decide, ?_, ?_, ?_, ?_⟩
    · rw [cdf_addObservations_new rnd _ 100 hn hl]
      have e : ((2 : ℚ) / 4) = 1 / 2 := by norm_num
      simp only [List.countP_cons, List.countP_nil, List.length_cons, List.length_nil]
      norm_num [e, h12]
    · rw [cdf_addObservations_new rnd _ 200 hn hl]
      simp [List.countP_cons, h34]
    · rw [cdf_addObservations_new rnd _ 300 hn hl]
      simp [List.countP_cons, h1]
    · rw [cdf_addObservations_new rnd _ 50 hn hl]
      simp

/-- C5 at the sequence 100, 100, 200, 300 with exact arithmetic: the values of the
scenario. -/
theorem C5_cdf_eq_fraction_witness :
    ([100, 100, 200, 300] : List Int) ≠ [] ∧ ([100, 100, 200, 300] : List Int).length < 2 ^ 32
      ∧ (new.addObservations [100, 100, 200, 300]).totalObservations = 4
      ∧ (cdf id (new.addObservations [100, 100, 200, 300]) 100).1 = 1 / 2
      ∧ (cdf id (new.addObservations [100, 100, 200, 300]) 200).1 = 3 / 4
      ∧ (cdf id (new.addObservations [100, 100, 200, 300]) 300).1 = 1
      ∧ (cdf id (new.addObservations [100, 100, 200, 300]) 50).1 = 0 :=
  ⟨by decide, by decide,
    (C5_cdf_eq_fraction id [100, 100, 200, 300] (by decide) (by decide)).2.2.2.2 rfl rfl rfl⟩

/-- C5 as stated fails: after `2 ^ 32` observations of `0` and one observation of `1` the
record of `0` has the wrapped count `0` and `_totalCount` is `1`, so `cdf(0)` is `0`, not
the number of observations `≤ 0` (which is `2 ^ 32`) over `totalCount`. -/
theorem C5_counterexample :
    (cdf id (new.addObservations (List.replicate (2 ^ 32) 0 ++ List.replicate 1 1)) 0).1
      ≠ (((List.replicate (2 ^ 32) (0 : Int) ++ List.replicate 1 1).countP
            (fun v => decide (v ≤ 0)) : Nat) : ℚ)
          / ((new.addObservations
              (List.replicate (2 ^ 32) 0 ++ List.replicate 1 1)).totalObservations : ℚ) :=
  cdf_ne_fraction_two_values (2 ^ 32) 1 (by norm_num) (by norm_num)
    (by norm_num [UNSIGNED_MOD]) (by norm_num [UNSIGNED_MOD])

/-- C6 (amended): for every accumulator with `0 < _totalCount` and `_totalCount` equal to
the sum of the counts (as after at least one and fewer than `2 ^ 32` `addObservation`
calls), with a consistent cache and a monotone `float` conversion keeping 0 and 1, `cdf`
is non-decreasing, is 1 at and above the maximum observed value and is 0 below the
minimum observed value. -/
theorem C6_cdf_monotone (rnd : ℚ → ℚ) (s : SizeDistribution) (hmono : Monotone rnd)
    (h0 : rnd 0 = 0) (h1 : rnd 1 = 1) (hs : Sorted s._sizeMap) (hv : CacheValid rnd s)
    (hsum : s._totalCount = sumCounts s._sizeMap) (hpos : 0 < s._totalCount) :
    (∀ x y, x ≤ y → (cdf rnd s x).1 ≤ (cdf rnd s y).1)
      ∧ (∀ x, (∀ k ∈ keys s._sizeMap, k ≤ x) → (cdf rnd s x).1 = 1)
      ∧ (∀ x, (∀ k ∈ keys s._sizeMap, x < k) → (cdf rnd s x).1 = 0) := by
  have ht : s._totalCount ≠ 0 := by omega
  have htq : (0 : ℚ) < (s._totalCount : ℚ) := by exact_mod_cast hpos
  have hnn : ∀ x, 0 ≤ rnd ((cumCount s._sizeMap x : ℚ) / (s._totalCount : ℚ)) := by
    intro x
    rw [← h0]
    exact hmono (by positivity)
  refine ⟨?_, ?_, ?_⟩
  · intro x y hxy
    rw [cdf_fst_eq rnd s x hv hs ht, cdf_fst_eq rnd s y hv hs ht]
    by_cases hx : ∃ k ∈ keys s._sizeMap, k ≤ x
    · have hy : ∃ k ∈ keys s._sizeMap, k ≤ y := by
        obtain ⟨k, hk, hkx⟩ := hx
        exact ⟨k, hk, le_trans hkx hxy⟩
      rw [if_pos hx, if_pos hy]
      apply hmono
      apply div_le_div_of_nonneg_right _ (le_of_lt htq)
      exact_mod_cast cumCount_mono s._sizeMap x y hxy
    · rw [if_neg hx]
      split
      · exact hnn y
      · exact le_refl _
  · intro x hx
    obtain ⟨k, d, rest, hm⟩ := exists_key_of_sumCounts_pos s._sizeMap (by omega)
    have hex : ∃ k ∈ keys s._sizeMap, k ≤ x :=
      ⟨k, by simp [hm, keys], hx k (by simp [hm, keys])⟩
    rw [cdf_fst_eq rnd s x hv hs ht, if_pos hex, cumCount_of_all_le _ _ hx, ← hsum,
      div_self (ne_of_gt htq), h1]
  · intro x hx
    rw [cdf_fst_eq rnd s x hv hs ht, if_neg]
    rintro ⟨k, hk, hkx⟩
    have := hx k hk
    omega

/-- C6 at the accumulator holding 100, 100, 200, 300, with exact arithmetic. -/
theorem C6_cdf_monotone_witness :
    Sorted (new.addObservations [100, 100, 200, 300])._sizeMap
      ∧ (new.addObservations [100, 100, 200, 300])._totalCount
          = sumCounts (new.addObservations [100, 100, 200, 300])._sizeMap
      ∧ 0 < (new.addObservations [100, 100, 200, 300])._totalCount
      ∧ (cdf id (new.addObservations [100, 100, 200, 300]) 150).1
          ≤ (cdf id (new.addObservations [100, 100, 200, 300]) 250).1 :=
  ⟨by decide, by decide, by decide,
    (C6_cdf_monotone id (new.addObservations [100, 100, 200, 300]) monotone_id rfl rfl
      (by decide) (cacheValid_of_not_computed _ _ rfl) (by decide) (by decide)).1
      150 250 (by decide)⟩

/-- C6 as stated fails: after `2 ^ 31 + 1` observations of `0` and `2 ^ 31` observations
of `1` the accumulator is non-empty (`totalObservations()` is `1`) and `1` is its maximum
observed value, but `cdf(1)` is not `1`. -/
theorem C6_counterexample :
    (∀ v ∈ List.replicate (2 ^ 31 + 1) (0 : Int) ++ List.replicate (2 ^ 31) 1, v ≤ 1)
      ∧ 0 < (new.addObservations
          (List.replicate (2 ^ 31 + 1) 0 ++ List.replicate (2 ^ 31) 1)).totalObservations
      ∧ (cdf id (new.addObservations
          (List.replicate (2 ^ 31 + 1) 0 ++ List.replicate (2 ^ 31) 1)) 1).1 ≠ 1 :=
  cdf_max_ne_one_two_values (2 ^ 31 + 1) (2 ^ 31) (by norm_num) (by norm_num)
    (by norm_num [UNSIGNED_MOD]) (by norm_num [UNSIGNED_MOD])

/-- C7 (amended): for every accumulator with `0 < _totalCount ≤` the sum of the counts
(every state with `_totalCount > 0` that `addObservation` reaches), a consistent cache and a
monotone `float` conversion keeping 1, and every `p`, `quantile(p)` makes the cache fresh and
returns the entry `i` of the quantile table converted to an integer, with
`i = floor(p * 1000)` bounded to `[0, 999]` (it is `floor(p * 1000)` for `p` in `[0, 1)`);
every entry `i < 1000` of the table is the `float` of the smallest observed value whose
cumulative probability is at least `i / 1000`. -/
theorem C7_quantile_table (rnd : ℚ → ℚ) (s : SizeDistribution) (p : ℚ) (hmono : Monotone rnd)
    (h1 : rnd 1 = 1) (hs : Sorted s._sizeMap) (hv : CacheValid rnd s)
    (hpos : 0 < s._totalCount) (hsum : s._totalCount ≤ sumCounts s._sizeMap) :
    (quantile rnd s p).2._isStatsComputed = true
      ∧ (quantile rnd s p).1
          = truncToInt ((quantile rnd s p).2._quantiles.getD (bucket p) 0)
      ∧ bucket p ≤ 999
      ∧ (0 ≤ p → p < 1 → (bucket p : Int) = ⌊p * 1000⌋)
      ∧ ∀ i : Nat, i < 1000 →
          ∃ v d, find (quantile rnd s p).2._sizeMap v = some d
            ∧ (i : ℚ) / 1000 ≤ d.cprob
            ∧ (∀ w dw, find (quantile rnd s p).2._sizeMap w = some dw →
                (i : ℚ) / 1000 ≤ dw.cprob → v ≤ w)
            ∧ (quantile rnd s p).2._quantiles.getD i 0 = rnd (v : ℚ) := by
  refine ⟨ensureFresh_isStatsComputed rnd s, rfl, bucket_le p, bucket_eq_floor p, ?_⟩
  intro i hi
  rw [quantile_snd, ensureFresh_of_valid rnd s hv]
  exact quantiles_entry rnd s i hmono h1 hs hpos hsum hi

/-- C7 at the accumulator holding 100, 100, 200, 300, with exact arithmetic and
`p = 1/2`. -/
theorem C7_quantile_table_witness :
    Sorted (new.addObservations [100, 100, 200, 300])._sizeMap
      ∧ 0 < (new.addObservations [100, 100, 200, 300])._totalCount
      ∧ (new.addObservations [100, 100, 200, 300])._totalCount
          ≤ sumCounts (new.addObservations [100, 100, 200, 300])._sizeMap
      ∧ ∃ v d, find (quantile id (new.addObservations [100, 100, 200, 300])
              (1 / 2)).2._sizeMap v = some d
          ∧ ((500 : Nat) : ℚ) / 1000 ≤ d.cprob
          ∧ (∀ w dw, find (quantile id (new.addObservations [100, 100, 200, 300])
                (1 / 2)).2._sizeMap w = some dw → ((500 : Nat) : ℚ) / 1000 ≤ dw.cprob → v ≤ w)
          ∧ (quantile id (new.addObservations [100, 100, 200, 300])
              (1 / 2)).2._quantiles.getD 500 0 = id (v : ℚ) :=
  ⟨by decide, by decide, by decide,
    (C7_quantile_table id (new.addObservations [100, 100, 200, 300]) (1 / 2) monotone_id rfl
      (by decide) (cacheValid_of_not_computed _ _ rfl) (by decide) (by decide)).2.2.2.2
      500 (by decide)⟩

/-- C7 as stated fails on the freshly constructed accumulator: the table entry that
`quantile(1/2)` returns is not an observed value, since there is none. -/
theorem C7_counterexample :
    ¬ ∃ v, v ∈ keys (quantile id new (1 / 2)).2._sizeMap
        ∧ (quantile id new (1 / 2)).2._quantiles.getD (bucket (1 / 2)) 0 = (v : ℚ) := by
  rintro ⟨v, hv, _⟩
  rw [quantile_snd, ensureFresh_new] at hv
  simp [new, keys] at hv

/-- C8: on the freshly constructed accumulator `totalObservations()` is 0, `cdf(x)` is 0
for every `x`, and `quantile` (in particular `quantile(0.5)`) returns the fill value 0 of
the constructed table; the recomputation does not divide (`_totalCount` is 0). -/
theorem C8_empty_accumulator (rnd : ℚ → ℚ) (x : Int) (p : ℚ) :
    new.totalObservations = 0
      ∧ (cdf rnd new x).1 = 0
      ∧ (quantile rnd new (1 / 2)).1 = 0
      ∧ (quantile rnd new p).1 = 0
      ∧ (cdf rnd new x).2 = { new with _isStatsComputed := true }
      ∧ (quantile rnd new p).2 = { new with _isStatsComputed := true } := by
  have hq : ∀ q, (quantile rnd new q).1 = 0 := by
    intro q
    rw [quantile_fst, ensureFresh_new]
    simp only [new]
    rw [getD_replicate_zero]
    simp [truncToInt]
  refine ⟨rfl, ?_, hq _, hq _, ?_, ?_⟩
  · rw [cdf_fst, ensureFresh_new]
    rfl
  · rw [cdf_snd, ensureFresh_new]
  · rw [quantile_snd, ensureFresh_new]

/-- C9: for every accumulator, a `cdf` or `quantile` call repeated after any `cdf` or
`quantile` call, with no `addObservation` in between, returns the same result as the first
one; and no `cdf` or `quantile` call changes `_totalCount`, the keys of the histogram or
the count of any record. -/
theorem C9_queries_idempotent (rnd : ℚ → ℚ) (s : SizeDistribution) (x y : Int) (p q : ℚ) :
    (cdf rnd (cdf rnd s x).2 x).1 = (cdf rnd s x).1
      ∧ (quantile rnd (quantile rnd s p).2 p).1 = (quantile rnd s p).1
      ∧ (cdf rnd (cdf rnd s y).2 x).1 = (cdf rnd s x).1
      ∧ (cdf rnd (quantile rnd s q).2 x).1 = (cdf rnd s x).1
      ∧ (quantile rnd (cdf rnd s y).2 p).1 = (quantile rnd s p).1
      ∧ (quantile rnd (quantile rnd s q).2 p).1 = (quantile rnd s p).1
      ∧ (cdf rnd (cdf rnd s x).2 x).2 = (cdf rnd s x).2
      ∧ (quantile rnd (quantile rnd s p).2 p).2 = (quantile rnd s p).2
      ∧ (cdf rnd s x).2._totalCount = s._totalCount
      ∧ keys (cdf rnd s x).2._sizeMap = keys s._sizeMap
      ∧ (cdf rnd s x).2._sizeMap.map (fun kv => (kv.1, kv.2.count))
          = s._sizeMap.map (fun kv => (kv.1, kv.2.count))
      ∧ (quantile rnd s p).2._totalCount = s._totalCount
      ∧ keys (quantile rnd s p).2._sizeMap = keys s._sizeMap
      ∧ (quantile rnd s p).2._sizeMap.map (fun kv => (kv.1, kv.2.count))
          = s._sizeMap.map (fun kv => (kv.1, kv.2.count)) := by
  simp only [cdf_fst, cdf_snd, quantile_fst, quantile_snd, ensureFresh_idem,
    ensureFresh_totalCount, ensureFresh_keys, ensureFresh_counts, and_self]

/-- C10: for every accumulator (a map with its ordering invariant, holding any keys and
counts) the archive written by `serialize` is read back by `serialize` into any
accumulator, which then has the same `totalObservations()`, the same histogram (keys,
counts and `cprob` values) and a stale cache, and hence (the cache of the saved one being
consistent) the same `cdf` result at every value. -/
theorem C10_serialize_round_trip (rnd : ℚ → ℚ) (s t : SizeDistribution) (rest : Archive)
    (hs : Sorted s._sizeMap) (hv : CacheValid rnd s) :
    ∃ s1, serialize_load ((serialize_save [] s).1 ++ rest) t = some (rest, s1)
      ∧ s1.totalObservations = s.totalObservations
      ∧ s1._sizeMap = s._sizeMap
      ∧ keys s1._sizeMap = keys s._sizeMap
      ∧ (∀ k, (find s1._sizeMap k).map SizeData.count = (find s._sizeMap k).map SizeData.count)
      ∧ s1._isStatsComputed = false
      ∧ s1._quantiles = t._quantiles
      ∧ ∀ x, (cdf rnd s1 x).1 = (cdf rnd s x).1 := by
  refine ⟨{ t with
      _totalCount := s._totalCount
      _sizeMap := s._sizeMap
      _isStatsComputed := false }, serialize_load_save s t rest hs, rfl, rfl, rfl,
    fun _ => rfl, rfl, rfl, ?_⟩
  intro x
  exact cdf_congr rnd s _ x hv (cacheValid_of_not_computed rnd _ rfl) rfl rfl

/-- C10 at the accumulator holding 100, 100, 200, 300, loaded into a fresh one. -/
theorem C10_serialize_round_trip_witness :
    Sorted (new.addObservations [100, 100, 200, 300])._sizeMap
      ∧ ∃ s1, serialize_load
            ((serialize_save [] (new.addObservations [100, 100, 200, 300])).1 ++ []) new
          = some ([], s1)
        ∧ s1.totalObservations = (new.addObservations [100, 100, 200, 300]).totalObservations
        ∧ s1._sizeMap = (new.addObservations [100, 100, 200, 300])._sizeMap
        ∧ keys s1._sizeMap = keys (new.addObservations [100, 100, 200, 300])._sizeMap
        ∧ (∀ k, (find s1._sizeMap k).map SizeData.count
            = (find (new.addObservations [100, 100, 200, 300])._sizeMap k).map SizeData.count)
        ∧ s1._isStatsComputed = false
        ∧ s1._quantiles = new._quantiles
        ∧ ∀ x, (cdf id s1 x).1 = (cdf id (new.addObservations [100, 100, 200, 300]) x).1 :=
  ⟨by decide,
    C10_serialize_round_trip id (new.addObservations [100, 100, 200, 300]) new [] (by decide)
      (cacheValid_of_not_computed _ _ rfl)⟩

/-- C11: for every archive content and every accumulator loaded into, the accumulator that
`serialize` leaves after reading the archive has `_isStatsComputed == false`, whatever
`cprob` values the archive holds and whatever the flag of the accumulator was before; and
the archive written from any accumulator, with any `cprob` values, is read. -/
theorem C11_load_marks_stale (ar : Archive) (s : SizeDistribution) :
    (∀ ar1 s1, serialize_load ar s = some (ar1, s1) → s1._isStatsComputed = false)
      ∧ (∀ (t : SizeDistribution) (rest : Archive), Sorted t._sizeMap →
          ∃ s1, serialize_load ((serialize_save [] t).1 ++ rest) s = some (rest, s1)
            ∧ s1._isStatsComputed = false) := by
  constructor
  · intro ar1 s1 h
    exact (serialize_load_spec s s1 ar ar1 h).1
  · intro t rest ht
    exact ⟨_, serialize_load_save t s rest ht, rfl⟩

/-- C11 at an archive holding the total 3 and two records with `cprob` 1, loaded into an
accumulator flagged fresh. -/
theorem C11_load_marks_stale_witness :
    serialize_load
        [Item.unsignedItem 3, Item.unsignedItem 2, Item.intItem 9, Item.unsignedItem 2,
          Item.floatItem 1, Item.intItem 4, Item.unsignedItem 1, Item.floatItem 1]
        { new with _isStatsComputed := true }
      = some ([], { new with
          _totalCount := 3
          _sizeMap := [(9, ⟨2, 1⟩), (4, ⟨1, 1⟩)]
          _isStatsComputed := false })
      ∧ ({ new with
          _totalCount := 3
          _sizeMap := [(9, ⟨2, 1⟩), (4, ⟨1, 1⟩)]
          _isStatsComputed := false } : SizeDistribution)._isStatsComputed = false :=
  ⟨rfl,
    (C11_load_marks_stale
      [Item.unsignedItem 3, Item.unsignedItem 2, Item.intItem 9, Item.unsignedItem 2,
        Item.floatItem 1, Item.intItem 4, Item.unsignedItem 1, Item.floatItem 1]
      { new with _isStatsComputed := true }).1 [] _ rfl⟩

/-- C12: the archive content written by `serialize` is `_totalCount`, then the histogram:
the number of pairs followed by the pairs in iteration order, each as key, `count`,
`cprob`; the keys are written in strictly descending order, so none occurs twice; nothing
else is written, and the content depends neither on the quantile table nor on the
freshness flag. -/
theorem C12_persisted_form (ar : Archive) (s : SizeDistribution) (hs : Sorted s._sizeMap) :
    (serialize_save ar s).1
        = ar ++ Item.unsignedItem s._totalCount :: Item.unsignedItem s._sizeMap.length
            :: saveMapItems s._sizeMap
      ∧ saveMapItems [] = []
      ∧ (∀ k d rest, saveMapItems ((k, d) :: rest)
          = Item.intItem k :: Item.unsignedItem d.count :: Item.floatItem d.cprob
              :: saveMapItems rest)
      ∧ intItems (saveMapItems s._sizeMap) = keys s._sizeMap
      ∧ List.Pairwise (fun a b => a > b) (intItems (saveMapItems s._sizeMap))
      ∧ (intItems (saveMapItems s._sizeMap)).Nodup
      ∧ (serialize_save [] s).1.length = 2 + 3 * s._sizeMap.length
      ∧ (∀ b q, (serialize_save ar { s with _isStatsComputed := b, _quantiles := q }).1
          = (serialize_save ar s).1) := by
  refine ⟨serialize_save_fst ar s, rfl, fun _ _ _ => rfl, intItems_saveMapItems _, ?_, ?_, ?_,
    fun _ _ => rfl⟩
  · rw [intItems_saveMapItems]
    exact hs
  · rw [intItems_saveMapItems]
    exact nodup_keys_of_sorted _ hs
  · rw [serialize_save_fst]
    simp only [List.nil_append, List.length_cons, length_saveMapItems]
    omega

/-- C12 at the accumulator holding 100, 100, 200, 300: the eleven values written. -/
theorem C12_persisted_form_witness :
    Sorted (new.addObservations [100, 100, 200, 300])._sizeMap
      ∧ (serialize_save [] (new.addObservations [100, 100, 200, 300])).1
          = [Item.unsignedItem 4, Item.unsignedItem 3,
              Item.intItem 300, Item.unsignedItem 1, Item.floatItem 0,
              Item.intItem 200, Item.unsignedItem 1, Item.floatItem 0,
              Item.intItem 100, Item.unsignedItem 2, Item.floatItem 0] :=
  ⟨by decide,
    (C12_persisted_form [] (new.addObservations [100, 100, 200, 300]) (by decide)).1.trans
      (by decide)⟩

/-- C13: a freshly constructed `SizeDistribution` has `_totalCount == 0`, an empty
histogram and `_isStatsComputed == false`; its quantile table holds 1000 zeros. -/
theorem C13_fresh_accumulator :
    new._totalCount = 0
      ∧ new._sizeMap = []
      ∧ new._isStatsComputed = false
      ∧ new.totalObservations = 0
      ∧ (∀ k, find new._sizeMap k = none)
      ∧ new._quantiles = List.replicate 1000 0 :=
  ⟨rfl, rfl, rfl, rfl, fun _ => rfl, rfl⟩

/-- C14 (amended): for every accumulator state and every integer `value`,
`totalObservations()` after `addObservation(value)` is the previous one plus one modulo
`2 ^ 32`, hence one more than before whenever the previous one is below `2 ^ 32 - 1`;
`totalObservations()`, `cdf`, `quantile` and saving leave `_totalCount` unchanged. -/
theorem C14_totalCount_changes (rnd : ℚ → ℚ) (s : SizeDistribution) (value x : Int) (p : ℚ)
    (ar : Archive) :
    (s.addObservation value).totalObservations = (s.totalObservations + 1) % 2 ^ 32
      ∧ (s.totalObservations + 1 < 2 ^ 32 →
          (s.addObservation value).totalObservations = s.totalObservations + 1
            ∧ s.totalObservations ≤ (s.addObservation value).totalObservations)
      ∧ (totalObservationsCall s).2._totalCount = s._totalCount
      ∧ (cdf rnd s x).2._totalCount = s._totalCount
      ∧ (quantile rnd s p).2._totalCount = s._totalCount
      ∧ (serialize_save ar s).2._totalCount = s._totalCount := by
  refine ⟨rfl, ?_, rfl, ensureFresh_totalCount rnd s, ensureFresh_totalCount rnd s, rfl⟩
  intro hlt
  have h : (s.addObservation value).totalObservations = s.totalObservations + 1 := by
    unfold totalObservations
    rw [addObservation_totalCount]
    exact incrUnsigned_of_lt _ hlt
  exact ⟨h, by omega⟩

/-- C14 at the accumulator holding 5, 7, 5, observing 7: the total goes from 3 to 4. -/
theorem C14_totalCount_changes_witness :
    (new.addObservations [5, 7, 5]).totalObservations + 1 < 2 ^ 32
      ∧ ((new.addObservations [5, 7, 5]).addObservation 7).totalObservations
          = (new.addObservations [5, 7, 5]).totalObservations + 1
      ∧ (new.addObservations [5, 7, 5]).totalObservations
          ≤ ((new.addObservations [5, 7, 5]).addObservation 7).totalObservations :=
  ⟨by decide,
    (C14_totalCount_changes id (new.addObservations [5, 7, 5]) 7 0 0 []).2.1 (by decide)⟩

/-- C14 as stated fails: in the state reached by `2 ^ 32 - 1` observations of `7`,
`totalObservations()` is `2 ^ 32 - 1`, and after one more `addObservation(7)` it is `0`,
which is smaller. -/
theorem C14_counterexample :
    ((new.addObservations (List.replicate (2 ^ 32 - 1) 7)).addObservation 7).totalObservations
      < (new.addObservations (List.replicate (2 ^ 32 - 1) 7)).totalObservations :=
  (totalObservations_wraps (2 ^ 32 - 1) 7 (by norm_num [UNSIGNED_MOD])).2.2

/-- C15: for every accumulator state, `totalObservations()` returns `_totalCount` and
leaves the state as it was: the histogram, the quantile table and the freshness flag are
the same after the call as before. -/
theorem C15_totalObservations_frame (s : SizeDistribution) :
    (totalObservationsCall s).1 = s._totalCount
      ∧ s.totalObservations = (totalObservationsCall s).1
      ∧ (totalObservationsCall s).2 = s
      ∧ (totalObservationsCall s).2._sizeMap = s._sizeMap
      ∧ (totalObservationsCall s).2._quantiles = s._quantiles
      ∧ (totalObservationsCall s).2._isStatsComputed = s._isStatsComputed :=
  ⟨rfl, rfl, rfl, rfl, rfl, rfl⟩

/-- C16: the quantile table is constructed with 1000 entries, all 0; `addObservation` and
`serialize` (saving or loading) leave the table as it is; so the table has exactly 1000
entries in every state reached through construction, `addObservation`, `serialize` and the
queries, and in every state with a consistent cache whose flag says fresh and whose
`_totalCount` is positive. -/
theorem C16_quantile_table_length (rnd : ℚ → ℚ) (s : SizeDistribution) :
    new._quantiles.length = 1000
      ∧ new._quantiles = List.replicate 1000 0
      ∧ (∀ value, (s.addObservation value)._quantiles = s._quantiles)
      ∧ (∀ ar, (serialize_save ar s).2._quantiles = s._quantiles)
      ∧ (∀ ar ar1 s1, serialize_load ar s = some (ar1, s1) → s1._quantiles = s._quantiles)
      ∧ (Reachable rnd s → s._quantiles.length = 1000)
      ∧ (CacheValid rnd s → s._isStatsComputed = true → 0 < s._totalCount →
          s._quantiles.length = 1000) := by
  have hnew : new._quantiles.length = 1000 := by
    show (List.replicate _quantileNum (0 : ℚ)).length = 1000
    rw [List.length_replicate]
    rfl
  refine ⟨hnew, rfl, fun _ => rfl, fun _ => rfl, ?_, ?_, ?_⟩
  · intro ar ar1 s1 h
    exact (serialize_load_spec s s1 ar ar1 h).2.2
  · intro h
    exact reachable_quantiles_length rnd s h
  · intro hv hf hpos
    exact quantiles_length_of_fresh rnd s hv hf hpos

/-- C16 at the state reached by observing 5 and then asking `cdf(5)`: it is reachable,
its flag says fresh, and its table has 1000 entries. -/
theorem C16_quantile_table_length_witness :
    Reachable id (cdf id (new.addObservation 5) 5).2
      ∧ (cdf id (new.addObservation 5) 5).2._isStatsComputed = true
      ∧ (cdf id (new.addObservation 5) 5).2._quantiles.length = 1000 :=
  ⟨Reachable.queryCdf _ _ (Reachable.add _ _ Reachable.construct),
    ensureFresh_isStatsComputed id _,
    (C16_quantile_table_length id (cdf id (new.addObservation 5) 5).2).2.2.2.2.2.1
      (Reachable.queryCdf _ _ (Reachable.add _ _ Reachable.construct))⟩

/-- C17: for every sequence of fewer than `2 ^ 32` observations added in order to a fresh
accumulator, an integer is a key of the histogram if and only if it occurs in the
sequence, and its record holds the number of its occurrences (with `cprob` 0); the
resulting state is the same for every reordering of the sequence. -/
theorem C17_histogram_is_multiset_count (xs : List Int) (hlt : xs.length < 2 ^ 32) :
    (∀ v, v ∈ keys (new.addObservations xs)._sizeMap ↔ v ∈ xs)
      ∧ (∀ v, v ∈ xs → find (new.addObservations xs)._sizeMap v = some ⟨xs.count v, 0⟩)
      ∧ (∀ v, v ∉ xs → find (new.addObservations xs)._sizeMap v = none)
      ∧ (∀ ys, ys.Perm xs → new.addObservations ys = new.addObservations xs) := by
  refine ⟨fun v => mem_keys_addObservations_new xs v, ?_, ?_,
    fun ys h => addObservations_perm xs ys h⟩
  · intro v hv
    have hc : xs.count v % UNSIGNED_MOD = xs.count v :=
      Nat.mod_eq_of_lt (lt_of_le_of_lt (List.count_le_length v xs) hlt)
    rw [find_addObservations_new, if_pos hv, hc]
  · intro v hv
    rw [find_addObservations_new, if_neg hv]

/-- C17 at the sequence 100, 100, 200, 300 and its reordering 300, 100, 200, 100. -/
theorem C17_histogram_is_multiset_count_witness :
    ([100, 100, 200, 300] : List Int).length < 2 ^ 32
      ∧ find (new.addObservations [100, 100, 200, 300])._sizeMap 100
          = some ⟨([100, 100, 200, 300] : List Int).count 100, 0⟩
      ∧ new.addObservations [300, 100, 200, 100] = new.addObservations [100, 100, 200, 300] :=
  ⟨by decide,
    (C17_histogram_is_multiset_count [100, 100, 200, 300] (by decide)).2.1 100 (by decide),
    (C17_histogram_is_multiset_count [100, 100, 200, 300] (by decide)).2.2.2
      [300, 100, 200, 100] (by decide)⟩

/-- C18: `addObservation` increments with 32-bit wraparound: the new `_totalCount` is the
old one plus one modulo `2 ^ 32`, and the new count of the observed key is its old count
plus one modulo `2 ^ 32` (the old count being 0 for a key that was absent); in a state with
`_totalCount == 2 ^ 32 - 1` one more `addObservation` makes `totalObservations()` return
0. -/
theorem C18_unsigned_wraparound (s : SizeDistribution) (value : Int)
    (hs : Sorted s._sizeMap) :
    (s.addObservation value)._totalCount = (s._totalCount + 1) % 2 ^ 32
      ∧ (∀ d, find s._sizeMap value = some d →
          (find (s.addObservation value)._sizeMap value).map SizeData.count
            = some ((d.count + 1) % 2 ^ 32))
      ∧ (find s._sizeMap value = none →
          (find (s.addObservation value)._sizeMap value).map SizeData.count
            = some ((0 + 1) % 2 ^ 32))
      ∧ (s._totalCount = 2 ^ 32 - 1 → (s.addObservation value).totalObservations = 0) := by
  refine ⟨rfl, ?_, ?_, ?_⟩
  · intro d hd
    rw [find_addObservation _ _ _ hs, hd]
    simp [incrCount, incrUnsigned, UNSIGNED_MOD]
  · intro hn
    rw [find_addObservation _ _ _ hs, hn]
    simp [incrCount, incrUnsigned, UNSIGNED_MOD]
  · intro ht
    unfold totalObservations
    rw [addObservation_totalCount, ht]
    simp [incrUnsigned, UNSIGNED_MOD]

/-- C18 at the state reached by `2 ^ 32 - 1` observations of `7`: one more observation
makes `totalObservations()` return 0. -/
theorem C18_unsigned_wraparound_witness :
    Sorted (new.addObservations (List.replicate (2 ^ 32 - 1) 7))._sizeMap
      ∧ (new.addObservations (List.replicate (2 ^ 32 - 1) 7))._totalCount = 2 ^ 32 - 1
      ∧ ((new.addObservations (List.replicate (2 ^ 32 - 1) 7)).addObservation 7).totalObservations
          = 0 :=
  ⟨sorted_addObservations _ _ sorted_new,
    (addObservation_wraps (2 ^ 32 - 1) (2 ^ 32 - 1) 7 (by norm_num)
      (by norm_num [UNSIGNED_MOD]) (by norm_num [UNSIGNED_MOD])).2.1,
    (C18_unsigned_wraparound (new.addObservations (List.replicate (2 ^ 32 - 1) 7)) 7
      (sorted_addObservations _ _ sorted_new)).2.2.2
      (addObservation_wraps (2 ^ 32 - 1) (2 ^ 32 - 1) 7 (by norm_num)
        (by norm_num [UNSIGNED_MOD]) (by norm_num [UNSIGNED_MOD])).2.1⟩

/-- C19: in every state reached from a fresh accumulator by fewer than `2 ^ 32`
`addObservation` calls, the record of every key has a count that is at least 1 and at most
`_totalCount`, and the histogram is non-empty if and only if `_totalCount > 0`. -/
theorem C19_counts_bounded (xs : List Int) (hlt : xs.length < 2 ^ 32) :
    (∀ v d, find (new.addObservations xs)._sizeMap v = some d →
        1 ≤ d.count ∧ d.count ≤ (new.addObservations xs)._totalCount)
      ∧ ((new.addObservations xs)._sizeMap ≠ [] ↔ 0 < (new.addObservations xs)._totalCount) := by
  have ht : (new.addObservations xs)._totalCount = xs.length := by
    rw [totalCount_addObservations_new]
    exact Nat.mod_eq_of_lt hlt
  constructor
  · intro v d hd
    rw [find_addObservations_new] at hd
    by_cases hv : v ∈ xs
    · have hc : xs.count v % UNSIGNED_MOD = xs.count v :=
        Nat.mod_eq_of_lt (lt_of_le_of_lt (List.count_le_length v xs) hlt)
      rw [if_pos hv, hc] at hd
      injection hd with hd
      subst hd
      exact ⟨List.count_pos_iff.2 hv, by rw [ht]; exact List.count_le_length v xs⟩
    · rw [if_neg hv] at hd
      cases hd
  · rw [ht]
    constructor
    · intro hne
      cases hm : (new.addObservations xs)._sizeMap with
      | nil => exact absurd hm hne
      | cons kv rest =>
        have hk : kv.1 ∈ keys (new.addObservations xs)._sizeMap := by
          rw [hm]
          simp [keys]
        rw [mem_keys_addObservations_new] at hk
        exact List.length_pos_of_mem hk
    · intro hpos hnil
      obtain ⟨v, hv⟩ := List.exists_mem_of_length_pos hpos
      have hk := (mem_keys_addObservations_new xs v).2 hv
      rw [hnil] at hk
      simp [keys] at hk

/-- C19 at the sequence 100, 100, 200, 300: the record of 100 has a count between 1 and
the total. -/
theorem C19_counts_bounded_witness :
    ([100, 100, 200, 300] : List Int).length < 2 ^ 32
      ∧ 1 ≤ (⟨2, 0⟩ : SizeData).count
      ∧ (⟨2, 0⟩ : SizeData).count ≤ (new.addObservations [100, 100, 200, 300])._totalCount :=
  ⟨by decide,
    (C19_counts_bounded [100, 100, 200, 300] (by decide)).1 100 ⟨2, 0⟩ (by decide)⟩

/-- C20: `serialize` on a saving archive sets `_isStatsComputed` to false and leaves
`_totalCount`, the histogram (keys, counts, `cprob` values) and the quantile table
unchanged. -/
theorem C20_save_marks_stale (ar : Archive) (s : SizeDistribution) :
    (serialize_save ar s).2._isStatsComputed = false
      ∧ (serialize_save ar s).2._totalCount = s._totalCount
      ∧ (serialize_save ar s).2._sizeMap = s._sizeMap
      ∧ (serialize_save ar s).2._quantiles = s._quantiles
      ∧ (serialize_save ar s).2 = { s with _isStatsComputed := false } :=
  ⟨rfl, rfl, rfl, rfl, rfl⟩

end Manta
